import Mathlib

/-!
# Site monitor and counting reader: a verification development

Shallow embedding of

* `tasks/goaroundsites/src/src.go` (`Monitor.checkSite`, `Monitor.printStatuses`,
  `Monitor.Run`, `NewMonitor`), and
* `tasks/structs_interfaces/src/io_reader.go` (`CountingToLowerReaderImpl`).

Sequential methods are pure functions with explicit state passing.  The
collaborators that live outside the repository (the HTTP client, the clock, the
underlying `io.Reader`, the `errgroup` task group) appear as explicit
parameters or as explicit pieces of state.
-/

namespace GoAroundSites

/-! ## Data model (`src.go`, lines 14-42) -/

/-- The constant `MaxGoroutines = 3`. -/
def MaxGoroutines : Nat := 3

/-- A `time.Time` value, kept abstract as a number of nanoseconds. -/
structure Time where
  nanos : Nat
  deriving DecidableEq, Repr

/-- The struct `SiteStatus`. -/
structure SiteStatus where
  Name : String
  StatusCode : Int
  TimeOfRequest : Time
  deriving DecidableEq, Repr

/-- The field `StatusMap map[string]SiteStatus`: a finite map with unique keys. -/
abbrev StatusMap : Type := AList (fun _ : String => SiteStatus)

/-- A successfully built `*http.Request`. -/
structure Request where
  method : String
  url : String
  deriving DecidableEq, Repr

/-- The part of `*http.Response` that `checkSite` reads. -/
structure Response where
  StatusCode : Int
  deriving DecidableEq, Repr

/-- What a call of `http.DefaultClient.Do(req)` can do: dereference a nil
request and panic, return `(nil, err)`, or return `(resp, nil)`. -/
inductive DoOutcome where
  | nilDeref
  | err (e : String)
  | resp (r : Response)
  deriving DecidableEq, Repr

/-- The collaborators of `checkSite` and `printStatuses` that are not part of
the repository: request construction, the HTTP transport, the clock, the
rendering of a `time.Time` by `%s`/`%v`, and the order in which `range` visits
the entries of a Go map. -/
structure Env where
  newRequest : String → Except String Request
  transport : Request → Except String Response
  now : Time
  showTime : Time → String
  rangeOrder : List (Sigma fun _ : String => SiteStatus) → List (Sigma fun _ : String => SiteStatus)

/-- The call `http.DefaultClient.Do(req)` on a possibly nil pointer `req`:
`Client.do` starts by reading `req.URL`, so a nil `req` is a nil-pointer
dereference; otherwise the transport decides. -/
def clientDo (env : Env) : Option Request → DoOutcome
  | none => DoOutcome.nilDeref
  | some r =>
    match env.transport r with
    | Except.error e => DoOutcome.err e
    | Except.ok resp => DoOutcome.resp resp

/-- The pointer `req` after line 94,
`req, err := http.NewRequestWithContext(reqCtx, http.MethodGet, site, nil)`:
nil when the request could not be constructed. -/
def builtRequest (env : Env) (site : String) : Option Request :=
  match env.newRequest site with
  | Except.error _ => none
  | Except.ok r => some r

/-- The result of running `checkSite`: either the goroutine panicked, or the
method returned, leaving a status map and the text it printed. -/
inductive CheckResult where
  | panicked (out : List String)
  | returned (table : StatusMap) (out : List String)

/-- The method `Monitor.checkSite` (lines 88-117), on the status map `table`.
The lock around the map write makes the write atomic; it is not modelled
further. -/
def checkSite (env : Env) (table : StatusMap) (site : String) : CheckResult :=
  -- line 94: req, err := http.NewRequestWithContext(reqCtx, http.MethodGet, site, nil)
  let built := env.newRequest site
  let req : Option Request := builtRequest env site
  -- lines 95-98: on error, print and set statusCode = 500; there is no return,
  -- execution continues with line 99 (both branches of line 100 assign
  -- statusCode again, so the value set here is never the one stored)
  let out1 : List String :=
    match built with
    | Except.error e => ["error creating request [" ++ site ++ "]: " ++ e ++ "\n"]
    | Except.ok _ => []
  -- line 99: resp, err := http.DefaultClient.Do(req)
  match clientDo env req with
  | DoOutcome.nilDeref => CheckResult.panicked out1
  | DoOutcome.err e =>
    -- lines 100-102
    let out2 := out1 ++ ["error exec request [" ++ site ++ "]: " ++ e ++ "\n"]
    let statusCode : Int := 500
    -- lines 110-116
    CheckResult.returned
      (table.insert site ⟨site, statusCode, env.now⟩) out2
  | DoOutcome.resp resp =>
    -- lines 103-108
    let statusCode : Int := resp.StatusCode
    CheckResult.returned
      (table.insert site ⟨site, statusCode, env.now⟩) out1

/-- The entry line of `printStatuses`:
`fmt.Printf("site %s, code: %d,  RT: %v\n", v.Name, v.StatusCode, v.TimeOfRequest)`. -/
def statusLine (env : Env) (v : SiteStatus) : String :=
  "site " ++ v.Name ++ ", code: " ++ toString v.StatusCode ++ ",  RT: " ++
    env.showTime v.TimeOfRequest ++ "\n"

/-- The header line of `printStatuses`:
`fmt.Printf("%s Current status\n", time.Now())`. -/
def headerLine (env : Env) : String :=
  env.showTime env.now ++ " Current status\n"

/-- The method `Monitor.printStatuses` (lines 119-130): returns the status map
it leaves behind and the list of texts written, one per `Printf` call. -/
def printStatuses (env : Env) (table : StatusMap) : StatusMap × List String :=
  (table, headerLine env :: (env.rangeOrder table.entries).map (fun e => statusLine env e.2))

/-- The entry line as the specification words it: endpoint, result code and
timestamp separated by single spaces. -/
def specStatusLine (env : Env) (v : SiteStatus) : String :=
  v.Name ++ " " ++ toString v.StatusCode ++ " " ++ env.showTime v.TimeOfRequest

/-- A concrete environment: every request can be built, the transport answers
200, and times are rendered as decimal nanoseconds. -/
def okEnv : Env :=
  ⟨fun site => Except.ok ⟨"GET", site⟩, fun _ => Except.ok ⟨200⟩, ⟨7⟩,
   fun t => toString t.nanos, fun l => l⟩

/-- A concrete environment whose transport always fails. -/
def downEnv : Env :=
  ⟨fun site => Except.ok ⟨"GET", site⟩, fun _ => Except.error "connection refused", ⟨7⟩,
   fun t => toString t.nanos, fun l => l⟩

/-- A concrete environment whose transport fails because the context of the
request is cancelled. -/
def canceledEnv : Env :=
  ⟨fun site => Except.ok ⟨"GET", site⟩, fun _ => Except.error "context canceled", ⟨7⟩,
   fun t => toString t.nanos, fun l => l⟩

/-- A concrete environment in which no request can be built, as
`http.NewRequestWithContext` does for a URL such as `"://"`: the error is the
`*url.Error` of `url.Parse`, rendered as `parse "<url>": missing protocol
scheme`. -/
def badUrlEnv : Env :=
  ⟨fun site => Except.error ("parse \"" ++ site ++ "\": missing protocol scheme"),
   fun _ => Except.ok ⟨200⟩, ⟨7⟩, fun t => toString t.nanos, fun l => l⟩

/-- The empty status map made by `NewMonitor`. -/
def emptyTable : StatusMap := ∅

/-- A status map with a record for `"b"` and a record for `"a"`. -/
def sampleTable : StatusMap :=
  (emptyTable.insert "b" ⟨"b", 404, ⟨1⟩⟩).insert "a" ⟨"a", 500, ⟨2⟩⟩

/-! ## `Monitor.Run` (lines 44-86) as a transition system

`Run` executes concurrently with the tasks it hands to the `errgroup.Group` and
with whoever cancels the context.  The embedding is an interleaving semantics:
a state holds the control location of the goroutine executing `Run`, the shared
variables, and the goroutines alive in the group; an event is one atomic step of
one of the participants. -/

/-- The non-nil values of `ctx.Err()`. -/
inductive CtxErr where
  | Canceled
  | DeadlineExceeded
  deriving DecidableEq, Repr

/-- Progress of the closure of lines 72-76: inside `m.checkSite(ctx, u)`, between
its return and the `atomic.StoreInt32`, or after the store. -/
inductive Phase where
  | checking
  | checked
  | released
  deriving DecidableEq, Repr

/-- A goroutine started by `m.G.Go`: the probe closure for index `i` and site
`u` (lines 72-76) or the report closure (lines 80-83). -/
inductive Task where
  | probe (i : Nat) (u : String) (ph : Phase)
  | report
  deriving DecidableEq, Repr

/-- The field `G errgroup.Group`: the capacity of its semaphore (`none` while no
limit is set) and the goroutines it has started that have not finished. -/
structure Group where
  limit : Option Nat
  tasks : List Task
  deriving DecidableEq, Repr

/-- The struct `Monitor` (the mutex is the atomicity of the map operations). -/
structure Monitor where
  StatusMap : StatusMap
  G : Group
  Sites : List String
  RequestFrequency : Int

/-- The constructor `NewMonitor` (lines 35-42): empty map, zero-valued group. -/
def NewMonitor (sites : List String) (requestFrequency : Int) : Monitor :=
  ⟨emptyTable, ⟨none, []⟩, sites, requestFrequency⟩

/-- Control locations of the goroutine executing `Run`. -/
inductive Pc where
  /-- Before line 48. -/
  | entry
  /-- At the `select` of line 58. -/
  | atSelect
  /-- In `m.G.Wait()`, line 60. -/
  | waiting
  /-- At the head of the `range` loop of line 65, about to visit index `i`. -/
  | rangeAt (i : Nat)
  /-- At line 69 for index `i`, after `ctx.Err()` was found nil at line 66. -/
  | casAt (i : Nat) (u : String)
  /-- At `m.G.Go` of line 72, after the compare-and-swap succeeded. -/
  | goProbe (i : Nat) (u : String)
  /-- At `m.G.Go` of line 80. -/
  | goReport
  /-- After a `return` statement, with the returned `error`. -/
  | returned (err : Option CtxErr)
  /-- After a panic raised in the goroutine of `Run`. -/
  | panicked
  deriving DecidableEq, Repr

/-- A state of one execution of `Run`. -/
structure RunState where
  pc : Pc
  ctxErr : Option CtxErr
  StatusMap : StatusMap
  G : Group
  siteInProgress : List Int
  crashed : Bool

/-- One atomic step of one participant. -/
inductive Event where
  /-- The goroutine of `Run` executes its next statement. -/
  | advance
  /-- The `select` commits to `<-ctx.Done()`. -/
  | selectDone
  /-- The `select` commits to `<-chkTimer.C`. -/
  | selectChk
  /-- The `select` commits to `<-stTimer.C`. -/
  | selectSt
  /-- The context is cancelled, by its owner or by a deadline. -/
  | cancel (e : CtxErr)
  /-- The `checkSite` call of the `k`-th goroutine of the group finishes. -/
  | probeReturn (k : Nat) (env : Env)
  /-- The `k`-th goroutine executes `atomic.StoreInt32(&siteInProgress[i], 0)`. -/
  | probeRelease (k : Nat)
  /-- The `k`-th goroutine, a probe closure, returns and leaves the group. -/
  | probeExit (k : Nat)
  /-- The `k`-th goroutine, a report closure, runs `printStatuses`, returns and
  leaves the group. -/
  | reportExit (k : Nat) (env : Env)

/-- The state in which `m.Run(ctx)` is entered, `ctx` not yet cancelled. -/
def initState (m : Monitor) : RunState :=
  ⟨Pc.entry, none, m.StatusMap, m.G, [], false⟩

/-- Whether `g.Go` can proceed: `g.sem <- token` does not block. -/
def Group.hasRoom (g : Group) : Bool :=
  match g.limit with
  | none => true
  | some n => decide (g.tasks.length < n)

/-- The call `g.Go(f)` once it proceeds: one more goroutine in the group. -/
def Group.go (g : Group) (t : Task) : Group :=
  ⟨g.limit, g.tasks ++ [t]⟩

/-- Lines 48-55: `SetLimit`, `make`, and the two `time.NewTicker` calls.
`SetLimit` panics when a limited group still holds goroutines, and
`time.NewTicker(d)` panics when `d <= 0`. -/
def stepEntry (m : Monitor) (s : RunState) : RunState :=
  if s.G.limit.isSome && !s.G.tasks.isEmpty then
    ⟨Pc.panicked, s.ctxErr, s.StatusMap, s.G, s.siteInProgress, s.crashed⟩
  else
    let g : Group := ⟨some MaxGoroutines, s.G.tasks⟩
    let flags : List Int := List.replicate m.Sites.length 0
    if m.RequestFrequency ≤ 0 then
      ⟨Pc.panicked, s.ctxErr, s.StatusMap, g, flags, s.crashed⟩
    else
      ⟨Pc.atSelect, s.ctxErr, s.StatusMap, g, flags, s.crashed⟩

/-- The next statement of the goroutine executing `Run`; `none` when it is
blocked (in `select`, in `Wait`, in `Go`) or has finished. -/
def stepAdvance (m : Monitor) (s : RunState) : Option RunState :=
  match s.pc with
  | Pc.entry => some (stepEntry m s)
  | Pc.atSelect => none
  | Pc.waiting =>
    -- line 60: Wait returns once the group is empty; every closure returns nil
    -- line 63: return ctx.Err()
    if s.G.tasks.isEmpty then
      some ⟨Pc.returned s.ctxErr, s.ctxErr, s.StatusMap, s.G, s.siteInProgress, s.crashed⟩
    else none
  | Pc.rangeAt i =>
    match m.Sites[i]? with
    | none => some ⟨Pc.atSelect, s.ctxErr, s.StatusMap, s.G, s.siteInProgress, s.crashed⟩
    | some u =>
      -- lines 66-68
      if s.ctxErr.isSome then
        some ⟨Pc.returned s.ctxErr, s.ctxErr, s.StatusMap, s.G, s.siteInProgress, s.crashed⟩
      else
        some ⟨Pc.casAt i u, s.ctxErr, s.StatusMap, s.G, s.siteInProgress, s.crashed⟩
  | Pc.casAt i u =>
    -- line 69: atomic.CompareAndSwapInt32(&siteInProgress[i], 0, 1)
    if s.siteInProgress[i]? = some 0 then
      some ⟨Pc.goProbe i u, s.ctxErr, s.StatusMap, s.G, s.siteInProgress.set i 1, s.crashed⟩
    else
      some ⟨Pc.rangeAt (i + 1), s.ctxErr, s.StatusMap, s.G, s.siteInProgress, s.crashed⟩
  | Pc.goProbe i u =>
    -- line 72
    if s.G.hasRoom then
      some ⟨Pc.rangeAt (i + 1), s.ctxErr, s.StatusMap, s.G.go (Task.probe i u Phase.checking),
        s.siteInProgress, s.crashed⟩
    else none
  | Pc.goReport =>
    -- line 80
    if s.G.hasRoom then
      some ⟨Pc.atSelect, s.ctxErr, s.StatusMap, s.G.go Task.report, s.siteInProgress, s.crashed⟩
    else none
  | Pc.returned _ => none
  | Pc.panicked => none

/-- The `select` of line 58 committing to one of its cases.  A case can be
chosen only when its channel is ready; when several are ready Go chooses among
them at random.  The tickers may have a tick pending at any time; `ctx.Done()`
is ready exactly when the context is cancelled. -/
def stepSelect (s : RunState) (next : Pc) (ready : Bool) : Option RunState :=
  match s.pc with
  | Pc.atSelect =>
    if ready then some ⟨next, s.ctxErr, s.StatusMap, s.G, s.siteInProgress, s.crashed⟩ else none
  | _ => none

/-- Line 73 in the `k`-th goroutine of the group: `m.checkSite(ctx, u)` runs to
its end.  A panic in a goroutine ends the whole process. -/
def stepProbeReturn (s : RunState) (k : Nat) (env : Env) : Option RunState :=
  match s.G.tasks[k]? with
  | some (Task.probe i u Phase.checking) =>
    match checkSite env s.StatusMap u with
    | CheckResult.panicked _ =>
      some ⟨s.pc, s.ctxErr, s.StatusMap, s.G, s.siteInProgress, true⟩
    | CheckResult.returned table _ =>
      some ⟨s.pc, s.ctxErr, table, ⟨s.G.limit, s.G.tasks.set k (Task.probe i u Phase.checked)⟩,
        s.siteInProgress, s.crashed⟩
  | _ => none

/-- Line 74 in the `k`-th goroutine: `atomic.StoreInt32(&siteInProgress[i], 0)`. -/
def stepProbeRelease (s : RunState) (k : Nat) : Option RunState :=
  match s.G.tasks[k]? with
  | some (Task.probe i u Phase.checked) =>
    some ⟨s.pc, s.ctxErr, s.StatusMap,
      ⟨s.G.limit, s.G.tasks.set k (Task.probe i u Phase.released)⟩,
      s.siteInProgress.set i 0, s.crashed⟩
  | _ => none

/-- Line 75 in the `k`-th goroutine: `return nil`; the goroutine leaves the
group and frees its slot. -/
def stepProbeExit (s : RunState) (k : Nat) : Option RunState :=
  match s.G.tasks[k]? with
  | some (Task.probe _ _ Phase.released) =>
    some ⟨s.pc, s.ctxErr, s.StatusMap, ⟨s.G.limit, s.G.tasks.eraseIdx k⟩,
      s.siteInProgress, s.crashed⟩
  | _ => none

/-- Lines 81-82 in the `k`-th goroutine: `m.printStatuses(ctx)`, `return nil`;
the goroutine leaves the group and frees its slot. -/
def stepReportExit (s : RunState) (k : Nat) (env : Env) : Option RunState :=
  match s.G.tasks[k]? with
  | some Task.report =>
    some ⟨s.pc, s.ctxErr, (printStatuses env s.StatusMap).1,
      ⟨s.G.limit, s.G.tasks.eraseIdx k⟩, s.siteInProgress, s.crashed⟩
  | _ => none

/-- One step of the system; `none` when the event is not enabled.  Nothing
happens any more once a goroutine has panicked. -/
def step (m : Monitor) (s : RunState) (e : Event) : Option RunState :=
  if s.crashed then none
  else
    match e with
    | Event.advance => stepAdvance m s
    | Event.selectDone => stepSelect s Pc.waiting s.ctxErr.isSome
    | Event.selectChk => stepSelect s (Pc.rangeAt 0) true
    | Event.selectSt => stepSelect s Pc.goReport true
    | Event.cancel c =>
      match s.ctxErr with
      | none => some ⟨s.pc, some c, s.StatusMap, s.G, s.siteInProgress, s.crashed⟩
      | some _ => none
    | Event.probeReturn k env => stepProbeReturn s k env
    | Event.probeRelease k => stepProbeRelease s k
    | Event.probeExit k => stepProbeExit s k
    | Event.reportExit k env => stepReportExit s k env

/-- Run a sequence of events from a state. -/
def execFrom (m : Monitor) (s : RunState) : List Event → Option RunState
  | [] => some s
  | e :: es =>
    match step m s e with
    | none => none
    | some s1 => execFrom m s1 es

/-- The states an execution of `m.Run(ctx)` can be in. -/
def Reachable (m : Monitor) (s : RunState) : Prop :=
  ∃ evs : List Event, execFrom m (initState m) evs = some s

/-- Whether a goroutine of the group is inside the probe of index `i`: its
`checkSite` call has not returned, or it has not yet cleared the flag. -/
def Task.probing (i : Nat) : Task → Bool
  | Task.probe j _ Phase.checking => decide (j = i)
  | Task.probe j _ Phase.checked => decide (j = i)
  | _ => false

/-- Whether a goroutine of the group is inside a probe of the site `u`. -/
def Task.probingSite (u : String) : Task → Bool
  | Task.probe _ v Phase.checking => decide (v = u)
  | Task.probe _ v Phase.checked => decide (v = u)
  | _ => false

/-- Number of outstanding probes of index `i`. -/
def outstanding (s : RunState) (i : Nat) : Nat :=
  s.G.tasks.countP (Task.probing i)

/-- Number of outstanding probes of the site `u`. -/
def outstandingSite (s : RunState) (u : String) : Nat :=
  s.G.tasks.countP (Task.probingSite u)

/-- Whether `Run` has passed the compare-and-swap for index `i` and is about to
start its probe. -/
def Pc.dispatching (i : Nat) : Pc → Bool
  | Pc.goProbe j _ => decide (j = i)
  | _ => false

/-! ### Invariants and sample executions -/

/-- The group invariant: the limit is unset on entry and `MaxGoroutines` from
then on, and the group never holds more goroutines than that. -/
def GroupInv (s : RunState) : Prop :=
  s.G.tasks.length ≤ MaxGoroutines ∧
  (s.pc = Pc.entry → s.G.tasks = [] ∧ s.G.limit = none) ∧
  (s.pc ≠ Pc.entry → s.G.limit = some MaxGoroutines)

/-- The exit invariant: `Run` has not panicked, it waits only after
cancellation, and what it returned is the non-nil error of the context. -/
def ExitInv (s : RunState) : Prop :=
  s.pc ≠ Pc.panicked ∧
  (s.pc = Pc.entry → s.G.limit = none) ∧
  (s.pc = Pc.waiting → s.ctxErr.isSome = true) ∧
  (∀ e, s.pc = Pc.returned e → s.ctxErr = e ∧ e.isSome = true)

/-- One if `Run` stands between the compare-and-swap for index `i` and the
start of its probe, zero otherwise. -/
def pending (s : RunState) (i : Nat) : Nat :=
  if s.pc.dispatching i = true then 1 else 0

/-- The flag invariant: for every index the probes outstanding and the probe
about to be started are together at most one, and while there is one the flag of
the index is 1; every probe closure holds the site of its index. -/
def FlagInv (m : Monitor) (s : RunState) : Prop :=
  (s.pc = Pc.entry → s.G.tasks = []) ∧
  (∀ i, outstanding s i + pending s i ≤ 1) ∧
  (∀ i, 0 < outstanding s i + pending s i → s.siteInProgress[i]? = some 1) ∧
  (∀ i u ph, Task.probe i u ph ∈ s.G.tasks → m.Sites[i]? = some u) ∧
  (∀ i u, s.pc = Pc.casAt i u ∨ s.pc = Pc.goProbe i u → m.Sites[i]? = some u)

/-- The events that take `Run` on four sites to the point where three probes
run and the fourth waits for a slot. -/
def fillTrace : List Event :=
  [Event.advance, Event.selectChk,
   Event.advance, Event.advance, Event.advance,
   Event.advance, Event.advance, Event.advance,
   Event.advance, Event.advance, Event.advance,
   Event.advance, Event.advance]

/-- The state after `fillTrace`: three probes in the group, `Run` at the
`m.G.Go` for the fourth site. -/
def fullState : RunState :=
  ⟨Pc.goProbe 3 "d", none, emptyTable,
   ⟨some 3, [Task.probe 0 "a" Phase.checking, Task.probe 1 "b" Phase.checking,
     Task.probe 2 "c" Phase.checking]⟩,
   [1, 1, 1, 1], false⟩

/-- The state in which `Run` on one site has returned after a cancellation seen
by the `select`. -/
def returnedState : RunState :=
  ⟨Pc.returned (some CtxErr.Canceled), some CtxErr.Canceled, emptyTable, ⟨some 3, []⟩, [0], false⟩

/-- Whether `Run` has seen the cancellation: it took the `ctx.Done()` case of
the `select`, or it has returned (through line 63 or line 67). -/
def Pc.sawCancel : Pc → Bool
  | Pc.waiting => true
  | Pc.returned _ => true
  | _ => false

/-- Whether a goroutine of the group is a probe closure. -/
def Task.isProbe : Task → Bool
  | Task.probe _ _ _ => true
  | Task.report => false

/-- Number of probe closures in the group. -/
def probeCount (s : RunState) : Nat :=
  s.G.tasks.countP Task.isProbe

/-- Whether `Run` stands after the check of line 66, which found `ctx.Err()`
nil, and before the end of the `m.G.Go` of line 72 of the same iteration. -/
def Pc.pastCheck : Pc → Bool
  | Pc.casAt _ _ => true
  | Pc.goProbe _ _ => true
  | _ => false

/-- One if `Run` stands between the check of line 66 and the end of the
`m.G.Go` of line 72, zero otherwise: the probes `Run` may still hand over
without looking at the context again. -/
def owed (s : RunState) : Nat :=
  if s.pc.pastCheck = true then 1 else 0

/-- Number of steps of an execution that hand a probe closure to the group,
that is, that raise the number of probe closures in it. -/
def probeSubmits (m : Monitor) (s : RunState) : List Event → Nat
  | [] => 0
  | e :: es =>
    match step m s e with
    | none => 0
    | some s1 => (if probeCount s < probeCount s1 then 1 else 0) + probeSubmits m s1 es

/-- The state `fullState` after the context has been cancelled: three probes in
the group, `Run` waiting in the `m.G.Go` for the fourth site. -/
def cancelledFullState : RunState :=
  ⟨Pc.goProbe 3 "d", some CtxErr.Canceled, emptyTable,
   ⟨some 3, [Task.probe 0 "a" Phase.checking, Task.probe 1 "b" Phase.checking,
     Task.probe 2 "c" Phase.checking]⟩,
   [1, 1, 1, 1], false⟩

/-- The events after the cancellation in `cancelledFullState`: the probe of `a`
ends, the fourth probe is handed over, the loop ends, the `select` commits to
the report tick, the probe of `b` ends, the report closure is handed over. -/
def afterCancelTrace : List Event :=
  [Event.probeReturn 0 canceledEnv, Event.probeRelease 0, Event.probeExit 0, Event.advance,
   Event.advance, Event.selectSt,
   Event.probeReturn 0 canceledEnv, Event.probeRelease 0, Event.probeExit 0, Event.advance]

/-- The state after `afterCancelTrace`. -/
def afterCancelState : RunState :=
  ⟨Pc.atSelect, some CtxErr.Canceled,
   (emptyTable.insert "a" ⟨"a", 500, ⟨7⟩⟩).insert "b" ⟨"b", 500, ⟨7⟩⟩,
   ⟨some 3, [Task.probe 2 "c" Phase.checking, Task.probe 3 "d" Phase.checking, Task.report]⟩,
   [0, 0, 1, 1], false⟩

/-- One site, its probe running, the context cancelled and the `select` in the
`ctx.Done()` case: `Run` waits for the group. -/
def drainingState : RunState :=
  ⟨Pc.waiting, some CtxErr.Canceled, emptyTable,
   ⟨some 3, [Task.probe 0 "a" Phase.checking]⟩, [1], false⟩

/-- The state after the probe of `drainingState` has ended and `Run` has
returned. -/
def drainedState : RunState :=
  ⟨Pc.returned (some CtxErr.Canceled), some CtxErr.Canceled,
   emptyTable.insert "a" ⟨"a", 500, ⟨7⟩⟩, ⟨some 3, []⟩, [0], false⟩

end GoAroundSites


namespace StructsInterfaces

/-! ## `CountingToLowerReaderImpl` (`io_reader.go`)

Bytes are natural numbers below 256; a `[]byte` is a list of them. -/

/-- The `error` values an `io.Reader` can return besides nil. -/
inductive IoErr where
  | EOF
  | other (msg : String)
  deriving DecidableEq, Repr

/-- One answer of the wrapped `io.Reader`: the bytes it delivers in this call
and the error it returns with them. -/
structure Answer where
  data : List Nat
  err : Option IoErr
  deriving DecidableEq, Repr

/-- The wrapped `io.Reader`, given by the answers it still has to give.  Once
they are used up it returns `(0, io.EOF)`. -/
abbrev Source : Type := List Answer

/-- The call `r.Read(p)` of the wrapped reader: the new content of `p`, the
count `n`, the error, and the reader afterwards.  An answer longer than `p`
is delivered in pieces, the error coming with the last piece. -/
def Source.read (r : Source) (p : List Nat) : List Nat × Nat × Option IoErr × Source :=
  match r with
  | [] => (p, 0, some IoErr.EOF, [])
  | a :: rest =>
    if a.data.length ≤ p.length then
      (a.data ++ p.drop a.data.length, a.data.length, a.err, rest)
    else
      (a.data.take p.length, p.length, none, ⟨a.data.drop p.length, a.err⟩ :: rest)

/-- The function `bytes.ToLower` on one ASCII byte. -/
def toLowerByte (b : Nat) : Nat :=
  if 65 ≤ b ∧ b ≤ 90 then b + 32 else b

/-- The function `bytes.ToLower` on a slice holding ASCII bytes only (bytes below
128).  On other input the library maps Unicode code points and replaces
invalid UTF-8, which this embedding leaves out: statements about it are made
for ASCII content only. -/
def bytesToLower (p : List Nat) : List Nat :=
  p.map toLowerByte

/-- Addition on `int64`, wrapping at 64 bits. -/
def addInt64 (a b : Int) : Int :=
  (a + b + 2 ^ 63) % 2 ^ 64 - 2 ^ 63

/-- The struct `CountingToLowerReaderImpl`. -/
structure CountingToLowerReaderImpl where
  Reader : Source
  TotalBytesRead : Int
  deriving DecidableEq, Repr

/-- The constructor `NewCountingReader`. -/
def NewCountingReader (r : Source) : CountingToLowerReaderImpl :=
  ⟨r, 0⟩

/-- The method `Read` (lines 20-32): the receiver afterwards, the new content of
`p`, and the pair `(n, err)` it returns. -/
def CountingToLowerReaderImpl.Read (cr : CountingToLowerReaderImpl) (p : List Nat) :
    CountingToLowerReaderImpl × List Nat × Nat × Option IoErr :=
  match cr.Reader.read p with
  | (p1, n, err, r1) =>
    if err = none ∨ err = some IoErr.EOF then
      -- lines 27-29
      (⟨r1, addInt64 cr.TotalBytesRead n⟩, bytesToLower p1, n, err)
    else
      -- line 31
      (⟨r1, cr.TotalBytesRead⟩, p1, 0, err)

/-- The method `BytesRead` (lines 34-36). -/
def CountingToLowerReaderImpl.BytesRead (cr : CountingToLowerReaderImpl) : Int :=
  cr.TotalBytesRead

/-- The loop of `ReadAll` (lines 47-53), at most `fuel` iterations: the receiver,
the bytes written to `res` and the error that ended the loop; `none` when the
loop is still running after `fuel` iterations. -/
def readLoop : Nat → CountingToLowerReaderImpl → List Nat → List Nat →
    Option (CountingToLowerReaderImpl × List Nat × IoErr)
  | 0, _, _, _ => none
  | fuel + 1, cr, buf, res =>
    match cr.Read buf with
    | (cr1, _, _, some e) => some (cr1, res, e)
    | (cr1, buf1, n, none) => readLoop fuel cr1 buf1 (res ++ buf1.take n)

/-- The method `ReadAll` (lines 38-60) for `bufSize >= 0`: the receiver
afterwards, the bytes of the returned string and the returned error. -/
def CountingToLowerReaderImpl.ReadAll (fuel : Nat) (cr : CountingToLowerReaderImpl)
    (bufSize : Nat) : Option (CountingToLowerReaderImpl × List Nat × Option IoErr) :=
  match readLoop fuel cr (List.replicate bufSize 0) [] with
  | none => none
  | some (cr1, res, e) =>
    if e = IoErr.EOF then some (cr1, res, none) else some (cr1, res, some e)

/-- The bytes a source delivers, in order. -/
def Source.bytes : Source → List Nat
  | [] => []
  | a :: rest => a.data ++ Source.bytes rest

/-- A bound on the number of `Read` calls a source can answer before it is
used up, for a buffer of at least one byte. -/
def Source.weight : Source → Nat
  | [] => 0
  | a :: rest => a.data.length + 1 + Source.weight rest

/-- A reader that delivers the two bytes of `"AB"` together with `io.EOF`, as
`iotest.DataErrReader(strings.NewReader("AB"))` does. -/
def dataErrSource : Source := [⟨[65, 66], some IoErr.EOF⟩]

/-- A source delivers the byte sequence `bs` and then signals `io.EOF`: its
answers carry the bytes of `bs` in order, no answer but the last carries an
error, and the last carries none or `io.EOF`. -/
def Source.delivers : Source → List Nat → Bool
  | [], bs => decide (bs = [])
  | [a], bs => decide (a.data = bs) && (decide (a.err = none) || decide (a.err = some IoErr.EOF))
  | a :: b :: rest, bs =>
    decide (a.err = none) && decide (a.data = bs.take a.data.length) &&
      Source.delivers (b :: rest) (bs.drop a.data.length)

end StructsInterfaces

/-! ## Theorems: `checkSite` and `printStatuses` -/

namespace GoAroundSites

theorem checkSite_of_err (env : Env) (table : StatusMap) (site e : String)
    (h : clientDo env (builtRequest env site) = DoOutcome.err e) :
    ∃ out, checkSite env table site =
      CheckResult.returned (table.insert site ⟨site, 500, env.now⟩) out := by
  simp only [checkSite, h]
  exact ⟨_, rfl⟩

theorem checkSite_of_resp (env : Env) (table : StatusMap) (site : String) (r : Response)
    (h : clientDo env (builtRequest env site) = DoOutcome.resp r) :
    ∃ out, checkSite env table site =
      CheckResult.returned (table.insert site ⟨site, r.StatusCode, env.now⟩) out := by
  simp only [checkSite, h]
  exact ⟨_, rfl⟩

theorem checkSite_of_nil (env : Env) (table : StatusMap) (site : String)
    (h : clientDo env (builtRequest env site) = DoOutcome.nilDeref) :
    ∃ out, checkSite env table site = CheckResult.panicked out := by
  simp only [checkSite, h]
  exact ⟨_, rfl⟩

/-- For every site whose request cannot be constructed, `checkSite` panics. -/
theorem checkSite_panics_of_bad_request (env : Env) (table : StatusMap) (site e : String)
    (h : env.newRequest site = Except.error e) :
    ∃ out, checkSite env table site = CheckResult.panicked out := by
  apply checkSite_of_nil
  simp [clientDo, builtRequest, h]

/-- Whenever `checkSite` returns, the map it leaves is the old one with one
record inserted under `site`: it is named `site`, stamped with the clock, and
its code is the one the client call decides. -/
theorem checkSite_returned_eq (env : Env) (table table1 : StatusMap) (site : String)
    (out : List String) (h : checkSite env table site = CheckResult.returned table1 out) :
    ∃ code, table1 = table.insert site ⟨site, code, env.now⟩ ∧
      (∀ e, clientDo env (builtRequest env site) = DoOutcome.err e → code = 500) ∧
      (∀ r, clientDo env (builtRequest env site) = DoOutcome.resp r → code = r.StatusCode) := by
  cases hdo : clientDo env (builtRequest env site) with
  | nilDeref =>
    obtain ⟨o, ho⟩ := checkSite_of_nil env table site hdo
    rw [ho] at h
    cases h
  | err e =>
    obtain ⟨o, ho⟩ := checkSite_of_err env table site e hdo
    rw [ho] at h
    cases h
    exact ⟨500, rfl, fun _ _ => rfl, fun r hr => (by cases hr)⟩
  | resp r =>
    obtain ⟨o, ho⟩ := checkSite_of_resp env table site r hdo
    rw [ho] at h
    cases h
    refine ⟨r.StatusCode, rfl, fun e he => (by cases he), fun r2 hr => ?_⟩
    cases hr
    rfl

/-- C4: whatever error the HTTP client call of `checkSite` returns, the record
stored for the site has `StatusCode` 500; when the call returns a response, the
stored `StatusCode` is the status code of the response. -/
theorem checkSite_status_code (env : Env) (table : StatusMap) (site : String) :
    (∀ e, clientDo env (builtRequest env site) = DoOutcome.err e →
      ∃ table1 out, checkSite env table site = CheckResult.returned table1 out ∧
        (table1.lookup site).map SiteStatus.StatusCode = some 500) ∧
    (∀ r, clientDo env (builtRequest env site) = DoOutcome.resp r →
      ∃ table1 out, checkSite env table site = CheckResult.returned table1 out ∧
        (table1.lookup site).map SiteStatus.StatusCode = some r.StatusCode) := by
  constructor
  · intro e h
    obtain ⟨out, ho⟩ := checkSite_of_err env table site e h
    exact ⟨_, out, ho, by simp [AList.lookup_insert]⟩
  · intro r h
    obtain ⟨out, ho⟩ := checkSite_of_resp env table site r h
    exact ⟨_, out, ho, by simp [AList.lookup_insert]⟩

/-- Witness for C4: a refused connection stores 500, and an answer with status
200 stores 200. -/
theorem checkSite_status_code_witness :
    (∃ table1 out, checkSite downEnv emptyTable "a" = CheckResult.returned table1 out ∧
        (table1.lookup "a").map SiteStatus.StatusCode = some 500) ∧
    (∃ table1 out, checkSite okEnv emptyTable "a" = CheckResult.returned table1 out ∧
        (table1.lookup "a").map SiteStatus.StatusCode = some (200 : Int)) :=
  ⟨(checkSite_status_code downEnv emptyTable "a").1 "connection refused" (by decide),
   (checkSite_status_code okEnv emptyTable "a").2 ⟨200⟩ (by decide)⟩

/-- C5 (the code at the failing input): for a site whose request cannot be
constructed, `checkSite` prints the construction error and then panics in
`http.DefaultClient.Do(nil)`; it stores no record. -/
theorem checkSite_bad_url_panics :
    builtRequest badUrlEnv "://" = none ∧
    checkSite badUrlEnv emptyTable "://" =
      CheckResult.panicked
        ["error creating request [://]: parse \"://\": missing protocol scheme\n"] := by
  constructor
  · rfl
  · rfl

/-- C8: after `checkSite(site)` returns, the map holds exactly one record under
`site`, and it is the record this call wrote, whatever was there before: its
`Name` is `site`, its `TimeOfRequest` is the clock of this call, and its
`StatusCode` is 500 when the client call returned an error and the status code
of the response otherwise; every other key maps to what it mapped to before,
and every key present before is still present. -/
theorem checkSite_frame (env : Env) (table table1 : StatusMap) (site : String)
    (out : List String) (h : checkSite env table site = CheckResult.returned table1 out) :
    (∃ r, table1.lookup site = some r ∧ r.Name = site ∧ r.TimeOfRequest = env.now ∧
      (∀ e, clientDo env (builtRequest env site) = DoOutcome.err e → r.StatusCode = 500) ∧
      (∀ resp, clientDo env (builtRequest env site) = DoOutcome.resp resp →
        r.StatusCode = resp.StatusCode)) ∧
    table1.keys.count site = 1 ∧
    (∀ k, k ≠ site → table1.lookup k = table.lookup k) ∧
    (∀ k, k ∈ table.keys → k ∈ table1.keys) := by
  obtain ⟨code, rfl, herr, hresp⟩ := checkSite_returned_eq env table table1 site out h
  refine ⟨⟨_, AList.lookup_insert _, rfl, rfl, herr, hresp⟩, ?_, ?_, ?_⟩
  · apply List.count_eq_one_of_mem (AList.keys_nodup _)
    rw [← AList.mem_keys, AList.mem_insert]
    exact Or.inl rfl
  · intro k hk
    exact AList.lookup_insert_ne hk
  · intro k hk
    rw [← AList.mem_keys, AList.mem_insert]
    exact Or.inr (AList.mem_keys.mpr hk)

/-- Witness for C8: probing `"a"`, the server answering 200 at time 7, on a map
that holds a record for `"b"` and the older record `a, 500, 2`; afterwards the
record under `"a"` is `a, 200, 7`. -/
theorem checkSite_frame_witness :
    checkSite okEnv sampleTable "a" =
      CheckResult.returned (sampleTable.insert "a" ⟨"a", 200, ⟨7⟩⟩) [] ∧
    sampleTable.lookup "a" = some ⟨"a", 500, ⟨2⟩⟩ ∧
    (sampleTable.insert "a" ⟨"a", 200, ⟨7⟩⟩).lookup "a" = some ⟨"a", 200, ⟨7⟩⟩ ∧
    clientDo okEnv (builtRequest okEnv "a") = DoOutcome.resp ⟨200⟩ ∧
    ((∃ r, (sampleTable.insert "a" ⟨"a", 200, ⟨7⟩⟩).lookup "a" = some r ∧ r.Name = "a" ∧
      r.TimeOfRequest = okEnv.now ∧
      (∀ e, clientDo okEnv (builtRequest okEnv "a") = DoOutcome.err e → r.StatusCode = 500) ∧
      (∀ resp, clientDo okEnv (builtRequest okEnv "a") = DoOutcome.resp resp →
        r.StatusCode = resp.StatusCode)) ∧
    (sampleTable.insert "a" ⟨"a", 200, ⟨7⟩⟩).keys.count "a" = 1 ∧
    (∀ k, k ≠ "a" → (sampleTable.insert "a" ⟨"a", 200, ⟨7⟩⟩).lookup k = sampleTable.lookup k) ∧
    (∀ k, k ∈ sampleTable.keys → k ∈ (sampleTable.insert "a" ⟨"a", 200, ⟨7⟩⟩).keys)) :=
  ⟨rfl, by decide, by decide, by decide,
    checkSite_frame okEnv sampleTable (sampleTable.insert "a" ⟨"a", 200, ⟨7⟩⟩) "a" [] rfl⟩

/-- C9 (counterexample): for the map holding the one record `A, 200, 5` the
entry line printed is `site A, code: 200,  RT: 5`, which is not the line
`A 200 5` that the specification gives as the format, with or without the line
end. -/
theorem printStatuses_format_counterexample :
    (printStatuses okEnv (emptyTable.insert "A" ⟨"A", 200, ⟨5⟩⟩)).2 =
      ["7 Current status\n", "site A, code: 200,  RT: 5\n"] ∧
    specStatusLine okEnv ⟨"A", 200, ⟨5⟩⟩ = "A 200 5" ∧
    (printStatuses okEnv (emptyTable.insert "A" ⟨"A", 200, ⟨5⟩⟩)).2 ≠
      ["7 Current status\n", specStatusLine okEnv ⟨"A", 200, ⟨5⟩⟩ ++ "\n"] ∧
    (printStatuses okEnv (emptyTable.insert "A" ⟨"A", 200, ⟨5⟩⟩)).2 ≠
      ["7 Current status\n", specStatusLine okEnv ⟨"A", 200, ⟨5⟩⟩] := by
  decide

/-- C9 (amended): `printStatuses` leaves the map as it is and writes the header
`<now> Current status` followed by one text per map entry, in the order in
which `range` visits the map, each of the form
`site <Name>, code: <StatusCode>,  RT: <TimeOfRequest>` and ending the line. -/
theorem printStatuses_output (env : Env) (table : StatusMap)
    (horder : ∀ l, (env.rangeOrder l).Perm l) :
    (printStatuses env table).1 = table ∧
    (∃ body, (printStatuses env table).2 = (env.showTime env.now ++ " Current status\n") :: body ∧
      body.length = table.entries.length ∧
      body.Perm (table.entries.map (fun e =>
        "site " ++ e.2.Name ++ ", code: " ++ toString e.2.StatusCode ++ ",  RT: " ++
          env.showTime e.2.TimeOfRequest ++ "\n"))) := by
  refine ⟨rfl, _, rfl, ?_, ?_⟩
  · rw [List.length_map]
    exact (horder _).length_eq
  · exact (horder _).map _

/-- Witness for C9 (amended): the map holding the one record `A, 200, 5`. -/
theorem printStatuses_output_witness :
    (printStatuses okEnv (emptyTable.insert "A" ⟨"A", 200, ⟨5⟩⟩)).1 =
      emptyTable.insert "A" ⟨"A", 200, ⟨5⟩⟩ ∧
    (∃ body, (printStatuses okEnv (emptyTable.insert "A" ⟨"A", 200, ⟨5⟩⟩)).2 =
        (okEnv.showTime okEnv.now ++ " Current status\n") :: body ∧
      body.length = (emptyTable.insert "A" ⟨"A", 200, ⟨5⟩⟩).entries.length ∧
      body.Perm ((emptyTable.insert "A" ⟨"A", 200, ⟨5⟩⟩).entries.map (fun e =>
        "site " ++ e.2.Name ++ ", code: " ++ toString e.2.StatusCode ++ ",  RT: " ++
          okEnv.showTime e.2.TimeOfRequest ++ "\n"))) :=
  printStatuses_output okEnv (emptyTable.insert "A" ⟨"A", 200, ⟨5⟩⟩) (fun l => List.Perm.refl l)

end GoAroundSites

/-! ## Theorems: `Monitor.Run` -/

namespace GoAroundSites

/-- A property that holds initially and is kept by every step holds after every
sequence of events. -/
theorem execFrom_invariant (m : Monitor) (P : RunState → Prop)
    (hstep : ∀ s e s1, P s → step m s e = some s1 → P s1) :
    ∀ (evs : List Event) (s s1 : RunState), P s → execFrom m s evs = some s1 → P s1 := by
  intro evs
  induction evs with
  | nil =>
    intro s s1 hP h
    simp only [execFrom, Option.some.injEq] at h
    exact h ▸ hP
  | cons e es ih =>
    intro s s1 hP h
    simp only [execFrom] at h
    cases hs : step m s e with
    | none => simp [hs] at h
    | some s2 =>
      rw [hs] at h
      exact ih s2 s1 (hstep s e s2 hP hs) h

theorem stepSelect_some {s s1 : RunState} {next : Pc} {ready : Bool}
    (h : stepSelect s next ready = some s1) :
    s.pc = Pc.atSelect ∧ ready = true ∧
      s1 = ⟨next, s.ctxErr, s.StatusMap, s.G, s.siteInProgress, s.crashed⟩ := by
  unfold stepSelect at h
  split at h
  · split at h
    · simp only [Option.some.injEq] at h
      exact ⟨by assumption, by assumption, h.symm⟩
    · cases h
  · cases h

theorem stepProbeReturn_some {s s1 : RunState} {k : Nat} {env : Env}
    (h : stepProbeReturn s k env = some s1) :
    ∃ i u, s.G.tasks[k]? = some (Task.probe i u Phase.checking) ∧
      (s1 = ⟨s.pc, s.ctxErr, s.StatusMap, s.G, s.siteInProgress, true⟩ ∨
       ∃ table out, checkSite env s.StatusMap u = CheckResult.returned table out ∧
        s1 = ⟨s.pc, s.ctxErr, table,
          ⟨s.G.limit, s.G.tasks.set k (Task.probe i u Phase.checked)⟩,
          s.siteInProgress, s.crashed⟩) := by
  unfold stepProbeReturn at h
  split at h
  · rename_i i u hk
    refine ⟨i, u, hk, ?_⟩
    split at h
    · simp only [Option.some.injEq] at h
      exact Or.inl h.symm
    · rename_i table out hc
      simp only [Option.some.injEq] at h
      exact Or.inr ⟨table, out, hc, h.symm⟩
  · cases h

theorem stepProbeRelease_some {s s1 : RunState} {k : Nat}
    (h : stepProbeRelease s k = some s1) :
    ∃ i u, s.G.tasks[k]? = some (Task.probe i u Phase.checked) ∧
      s1 = ⟨s.pc, s.ctxErr, s.StatusMap,
        ⟨s.G.limit, s.G.tasks.set k (Task.probe i u Phase.released)⟩,
        s.siteInProgress.set i 0, s.crashed⟩ := by
  unfold stepProbeRelease at h
  split at h
  · rename_i i u hk
    simp only [Option.some.injEq] at h
    exact ⟨i, u, hk, h.symm⟩
  · cases h

theorem stepProbeExit_some {s s1 : RunState} {k : Nat}
    (h : stepProbeExit s k = some s1) :
    ∃ i u, s.G.tasks[k]? = some (Task.probe i u Phase.released) ∧
      s1 = ⟨s.pc, s.ctxErr, s.StatusMap, ⟨s.G.limit, s.G.tasks.eraseIdx k⟩,
        s.siteInProgress, s.crashed⟩ := by
  unfold stepProbeExit at h
  split at h
  · rename_i i u hk
    simp only [Option.some.injEq] at h
    exact ⟨i, u, hk, h.symm⟩
  · cases h

theorem stepReportExit_some {s s1 : RunState} {k : Nat} {env : Env}
    (h : stepReportExit s k env = some s1) :
    s.G.tasks[k]? = some Task.report ∧
      s1 = ⟨s.pc, s.ctxErr, s.StatusMap, ⟨s.G.limit, s.G.tasks.eraseIdx k⟩,
        s.siteInProgress, s.crashed⟩ := by
  unfold stepReportExit at h
  split at h
  · rename_i hk
    simp only [Option.some.injEq] at h
    exact ⟨hk, h.symm⟩
  · cases h

theorem step_cancel_some {m : Monitor} {s s1 : RunState} {c : CtxErr}
    (h : step m s (Event.cancel c) = some s1) :
    s.ctxErr = none ∧
      s1 = ⟨s.pc, some c, s.StatusMap, s.G, s.siteInProgress, s.crashed⟩ := by
  unfold step at h
  split at h
  · cases h
  · simp only at h
    split at h
    · rename_i hc
      simp only [Option.some.injEq] at h
      exact ⟨hc, h.symm⟩
    · cases h

theorem length_eraseIdx_le_self {α : Type} (l : List α) (k : Nat) :
    (l.eraseIdx k).length ≤ l.length := by
  rw [List.length_eraseIdx]
  split <;> omega

theorem groupInv_advance (m : Monitor) (s s1 : RunState)
    (hP : GroupInv s) (h : stepAdvance m s = some s1) : GroupInv s1 := by
  obtain ⟨pc, ctxErr, tbl, ⟨limit, tasks⟩, flags, crashed⟩ := s
  obtain ⟨h1, h2, h3⟩ := hP
  simp only at h1 h2 h3
  cases pc <;> simp only [stepAdvance, stepEntry, Group.hasRoom, Group.go] at h
  case entry =>
    obtain ⟨rfl, rfl⟩ := h2 rfl
    simp only [Option.isSome_none, Bool.false_and, Bool.false_eq_true, ↓reduceIte,
      Option.some.injEq] at h
    subst h
    split <;> simp [GroupInv]
  case atSelect => cases h
  case waiting =>
    split at h
    · simp only [Option.some.injEq] at h
      subst h
      simpa [GroupInv] using ⟨h1, h3 (by simp)⟩
    · cases h
  case rangeAt i =>
    have hl := h3 (by simp)
    split at h
    · simp only [Option.some.injEq] at h
      subst h
      simpa [GroupInv] using ⟨h1, hl⟩
    · split at h <;>
      · simp only [Option.some.injEq] at h
        subst h
        simpa [GroupInv] using ⟨h1, hl⟩
  case casAt i u =>
    have hl := h3 (by simp)
    split at h <;>
    · simp only [Option.some.injEq] at h
      subst h
      simpa [GroupInv] using ⟨h1, hl⟩
  case goProbe i u =>
    have hl := h3 (by simp)
    subst hl
    simp only [decide_eq_true_eq] at h
    split at h
    · rename_i hlt
      simp only [Option.some.injEq] at h
      subst h
      simp only [GroupInv, List.length_append, List.length_singleton, reduceCtorEq,
        false_implies, ne_eq, not_false_eq_true, true_implies, and_self, and_true]
      omega
    · cases h
  case goReport =>
    have hl := h3 (by simp)
    subst hl
    simp only [decide_eq_true_eq] at h
    split at h
    · rename_i hlt
      simp only [Option.some.injEq] at h
      subst h
      simp only [GroupInv, List.length_append, List.length_singleton, reduceCtorEq,
        false_implies, ne_eq, not_false_eq_true, true_implies, and_self, and_true]
      omega
    · cases h
  case returned e => cases h
  case panicked => cases h

theorem groupInv_step (m : Monitor) (s : RunState) (e : Event) (s1 : RunState)
    (hP : GroupInv s) (h : step m s e = some s1) : GroupInv s1 := by
  cases e with
  | cancel c =>
    obtain ⟨_, rfl⟩ := step_cancel_some h
    exact hP
  | _ =>
    unfold step at h
    split at h
    · cases h
    · simp only at h
      first
        | exact groupInv_advance m s s1 hP h
        | (obtain ⟨hpc, _, rfl⟩ := stepSelect_some h
           obtain ⟨h1, h2, h3⟩ := hP
           exact ⟨h1, by simp, fun _ => h3 (by simp [hpc])⟩)
        | (obtain ⟨i, u, hk, hs | ⟨table, out, _, hs⟩⟩ := stepProbeReturn_some h
           · subst hs; exact hP
           · subst hs
             obtain ⟨h1, h2, h3⟩ := hP
             refine ⟨by simpa using h1, fun hpc => ?_, h3⟩
             have := (h2 hpc).1
             simp [this] at hk)
        | (obtain ⟨i, u, hk, rfl⟩ := stepProbeRelease_some h
           obtain ⟨h1, h2, h3⟩ := hP
           refine ⟨by simpa using h1, fun hpc => ?_, h3⟩
           have := (h2 hpc).1
           simp [this] at hk)
        | (obtain ⟨i, u, hk, rfl⟩ := stepProbeExit_some h
           obtain ⟨h1, h2, h3⟩ := hP
           refine ⟨le_trans (length_eraseIdx_le_self _ _) h1, fun hpc => ?_, h3⟩
           have := (h2 hpc).1
           simp [this] at hk)
        | (obtain ⟨hk, rfl⟩ := stepReportExit_some h
           obtain ⟨h1, h2, h3⟩ := hP
           refine ⟨le_trans (length_eraseIdx_le_self _ _) h1, fun hpc => ?_, h3⟩
           have := (h2 hpc).1
           simp [this] at hk)

theorem exitInv_advance (m : Monitor) (hfreq : 0 < m.RequestFrequency) (s s1 : RunState)
    (hP : ExitInv s) (h : stepAdvance m s = some s1) : ExitInv s1 := by
  obtain ⟨pc, ctxErr, tbl, ⟨limit, tasks⟩, flags, crashed⟩ := s
  obtain ⟨h1, h2, h3, h4⟩ := hP
  simp only at h1 h2 h3 h4
  cases pc <;> simp only [stepAdvance, stepEntry, Group.hasRoom, Group.go] at h
  case entry =>
    have hl := h2 rfl
    subst hl
    simp only [Option.isSome_none, Bool.false_and, Bool.false_eq_true, ↓reduceIte,
      Option.some.injEq, not_le.mpr hfreq] at h
    subst h
    simp [ExitInv]
  case atSelect => cases h
  case waiting =>
    split at h
    · simp only [Option.some.injEq] at h
      subst h
      simpa [ExitInv] using h3 rfl
    · cases h
  case rangeAt i =>
    split at h
    · simp only [Option.some.injEq] at h
      subst h
      simp [ExitInv]
    · split at h
      · rename_i hc
        simp only [Option.some.injEq] at h
        subst h
        simpa [ExitInv] using hc
      · simp only [Option.some.injEq] at h
        subst h
        simp [ExitInv]
  case casAt i u =>
    split at h <;>
    · simp only [Option.some.injEq] at h
      subst h
      simp [ExitInv]
  case goProbe i u =>
    split at h
    · simp only [Option.some.injEq] at h
      subst h
      simp [ExitInv]
    · cases h
  case goReport =>
    split at h
    · simp only [Option.some.injEq] at h
      subst h
      simp [ExitInv]
    · cases h
  case returned e => cases h
  case panicked => cases h

theorem exitInv_of_same {s s1 : RunState} (hP : ExitInv s) (hpc : s1.pc = s.pc)
    (hc : s1.ctxErr = s.ctxErr) (hl : s1.G.limit = s.G.limit) : ExitInv s1 := by
  unfold ExitInv at *
  rw [hpc, hc, hl]
  exact hP

theorem exitInv_step (m : Monitor) (hfreq : 0 < m.RequestFrequency) (s : RunState) (e : Event)
    (s1 : RunState) (hP : ExitInv s) (h : step m s e = some s1) : ExitInv s1 := by
  cases e with
  | cancel c =>
    obtain ⟨hnone, rfl⟩ := step_cancel_some h
    obtain ⟨h1, h2, h3, h4⟩ := hP
    refine ⟨h1, h2, fun _ => rfl, fun e he => ?_⟩
    have := (h4 e he).1
    rw [hnone] at this
    have h5 := (h4 e he).2
    rw [← this] at h5
    cases h5
  | _ =>
    unfold step at h
    split at h
    · cases h
    · simp only at h
      first
        | exact exitInv_advance m hfreq s s1 hP h
        | (obtain ⟨hpc, hr, rfl⟩ := stepSelect_some h
           obtain ⟨h1, h2, h3, h4⟩ := hP
           exact ⟨by simp, by simp, by simp [hr], by simp⟩)
        | (obtain ⟨i, u, hk, hs | ⟨table, out, _, hs⟩⟩ := stepProbeReturn_some h
           · subst hs; exact exitInv_of_same hP rfl rfl rfl
           · subst hs; exact exitInv_of_same hP rfl rfl rfl)
        | (obtain ⟨i, u, hk, rfl⟩ := stepProbeRelease_some h
           exact exitInv_of_same hP rfl rfl rfl)
        | (obtain ⟨i, u, hk, rfl⟩ := stepProbeExit_some h
           exact exitInv_of_same hP rfl rfl rfl)
        | (obtain ⟨hk, rfl⟩ := stepReportExit_some h
           exact exitInv_of_same hP rfl rfl rfl)

theorem countP_set_of_get {α : Type} (p : α → Bool) (l : List α) (k : Nat) (a b : α)
    (h : l[k]? = some a) :
    (l.set k b).countP p + (if p a = true then 1 else 0) =
      l.countP p + (if p b = true then 1 else 0) := by
  induction l generalizing k with
  | nil => simp at h
  | cons x xs ih =>
    cases k with
    | zero =>
      simp only [List.getElem?_cons_zero, Option.some.injEq] at h
      subst h
      simp only [List.set_cons_zero, List.countP_cons]
      omega
    | succ n =>
      simp only [List.getElem?_cons_succ] at h
      have := ih n h
      simp only [List.set_cons_succ, List.countP_cons]
      omega

theorem countP_eraseIdx_of_get {α : Type} (p : α → Bool) (l : List α) (k : Nat) (a : α)
    (h : l[k]? = some a) :
    (l.eraseIdx k).countP p + (if p a = true then 1 else 0) = l.countP p := by
  induction l generalizing k with
  | nil => simp at h
  | cons x xs ih =>
    cases k with
    | zero =>
      simp only [List.getElem?_cons_zero, Option.some.injEq] at h
      subst h
      simp only [List.eraseIdx_cons_zero, List.countP_cons]
    | succ n =>
      simp only [List.getElem?_cons_succ] at h
      have := ih n h
      simp only [List.eraseIdx_cons_succ, List.countP_cons]
      omega

theorem mem_of_get_eq_some {α : Type} {l : List α} {k : Nat} {a : α}
    (h : l[k]? = some a) : a ∈ l := by
  obtain ⟨hk, rfl⟩ := List.getElem?_eq_some.mp h
  exact List.getElem_mem hk

theorem flagInv_advance (m : Monitor) (s s1 : RunState)
    (hP : FlagInv m s) (h : stepAdvance m s = some s1) : FlagInv m s1 := by
  obtain ⟨pc, ctxErr, tbl, ⟨limit, tasks⟩, flags, crashed⟩ := s
  obtain ⟨h1, h2, h3, h4, h5⟩ := hP
  simp only [outstanding, pending] at h1 h2 h3 h4 h5
  cases pc <;> simp only [stepAdvance, stepEntry, Group.hasRoom, Group.go] at h
  case entry =>
    have ht := h1 rfl
    subst ht
    simp only [Option.some.injEq] at h
    subst h
    split <;> (try split) <;> simp [FlagInv, outstanding, pending, Pc.dispatching]
  case atSelect => cases h
  case waiting =>
    split at h
    · simp only [Option.some.injEq] at h
      subst h
      exact ⟨by simp, h2, h3, h4, by simp⟩
    · cases h
  case rangeAt i =>
    split at h
    · simp only [Option.some.injEq] at h
      subst h
      exact ⟨by simp, h2, h3, h4, by simp⟩
    · rename_i u hu
      split at h
      · simp only [Option.some.injEq] at h
        subst h
        exact ⟨by simp, h2, h3, h4, by simp⟩
      · simp only [Option.some.injEq] at h
        subst h
        refine ⟨by simp, h2, h3, h4, ?_⟩
        intro j v hj
        simp only [Pc.casAt.injEq, reduceCtorEq, or_false] at hj
        obtain ⟨rfl, rfl⟩ := hj
        exact hu
  case casAt i u =>
    have hu := h5 i u (Or.inl rfl)
    split at h
    · rename_i hflag
      simp only [Option.some.injEq] at h
      subst h
      have hzero : tasks.countP (Task.probing i) = 0 := by
        by_contra hne
        have := h3 i (by simp only [Pc.dispatching]; omega)
        rw [hflag] at this
        simp at this
      have hlen : i < flags.length := by
        obtain ⟨hl, _⟩ := List.getElem?_eq_some.mp hflag
        exact hl
      refine ⟨by simp, ?_, ?_, h4, ?_⟩
      · intro j
        simp only [outstanding, pending, Pc.dispatching]
        by_cases hij : i = j
        · subst hij
          simp [hzero]
        · have := h2 j
          simp only [Pc.dispatching] at this
          simp only [decide_eq_true_eq, hij, ↓reduceIte]
          omega
      · intro j hj
        simp only [outstanding, pending, Pc.dispatching] at hj
        by_cases hij : i = j
        · subst hij
          simp [List.getElem?_set, hlen]
        · rw [List.getElem?_set_ne hij]
          apply h3 j
          simp only [decide_eq_true_eq, hij, ↓reduceIte] at hj
          simp only [Pc.dispatching]
          omega
      · intro j v hj
        simp only [reduceCtorEq, Pc.goProbe.injEq, false_or] at hj
        obtain ⟨rfl, rfl⟩ := hj
        exact hu
    · simp only [Option.some.injEq] at h
      subst h
      exact ⟨by simp, h2, h3, h4, by simp⟩
  case goProbe i u =>
    have hu := h5 i u (Or.inr rfl)
    split at h
    · simp only [Option.some.injEq] at h
      subst h
      refine ⟨by simp, ?_, ?_, ?_, by simp⟩
      · intro j
        have := h2 j
        simp only [Pc.dispatching, decide_eq_true_eq] at this
        simp only [outstanding, pending, Pc.dispatching, List.countP_append, List.countP_cons,
          List.countP_nil, Task.probing, decide_eq_true_eq, Bool.false_eq_true, ↓reduceIte]
        omega
      · intro j hj
        apply h3 j
        simp only [outstanding, pending, Pc.dispatching, List.countP_append, List.countP_cons,
          List.countP_nil, Task.probing, decide_eq_true_eq, Bool.false_eq_true, ↓reduceIte] at hj
        simp only [Pc.dispatching, decide_eq_true_eq]
        omega
      · intro j v ph hmem
        simp only [List.mem_append, List.mem_singleton, Task.probe.injEq] at hmem
        rcases hmem with hmem | ⟨rfl, rfl, _⟩
        · exact h4 j v ph hmem
        · exact hu
    · cases h
  case goReport =>
    split at h
    · simp only [Option.some.injEq] at h
      subst h
      refine ⟨by simp, ?_, ?_, ?_, by simp⟩
      · intro j
        have := h2 j
        simp only [Pc.dispatching] at this
        simp only [outstanding, pending, Pc.dispatching, List.countP_append, List.countP_cons,
          List.countP_nil, Task.probing, Bool.false_eq_true, ↓reduceIte]
        omega
      · intro j hj
        apply h3 j
        simp only [outstanding, pending, Pc.dispatching, List.countP_append, List.countP_cons,
          List.countP_nil, Task.probing, Bool.false_eq_true, ↓reduceIte] at hj
        simp only [Pc.dispatching]
        omega
      · intro j v ph hmem
        simp only [List.mem_append, List.mem_singleton, reduceCtorEq, or_false] at hmem
        exact h4 j v ph hmem
    · cases h
  case returned e => cases h
  case panicked => cases h

theorem flagInv_probeReturn (m : Monitor) (s s1 : RunState) (k : Nat) (env : Env)
    (hP : FlagInv m s) (h : stepProbeReturn s k env = some s1) : FlagInv m s1 := by
  obtain ⟨i, u, hk, hs | ⟨table, out, _, hs⟩⟩ := stepProbeReturn_some h
  · subst hs
    exact hP
  · subst hs
    obtain ⟨h1, h2, h3, h4, h5⟩ := hP
    have hcount : ∀ j, (s.G.tasks.set k (Task.probe i u Phase.checked)).countP (Task.probing j) =
        s.G.tasks.countP (Task.probing j) := by
      intro j
      have := countP_set_of_get (Task.probing j) s.G.tasks k _
        (Task.probe i u Phase.checked) hk
      simp only [Task.probing] at this
      omega
    refine ⟨fun hpc => ?_, ?_, ?_, ?_, h5⟩
    · have := h1 hpc
      simp [this] at hk
    · intro j
      have := h2 j
      simp only [outstanding, pending, hcount] at this ⊢
      exact this
    · intro j hj
      apply h3 j
      simp only [outstanding, pending, hcount] at hj ⊢
      exact hj
    · intro j v ph hmem
      rcases List.mem_or_eq_of_mem_set hmem with hmem | heq
      · exact h4 j v ph hmem
      · simp only [Task.probe.injEq] at heq
        obtain ⟨rfl, rfl, _⟩ := heq
        exact h4 _ _ _ (mem_of_get_eq_some hk)

theorem flagInv_probeRelease (m : Monitor) (s s1 : RunState) (k : Nat)
    (hP : FlagInv m s) (h : stepProbeRelease s k = some s1) : FlagInv m s1 := by
  obtain ⟨i, u, hk, rfl⟩ := stepProbeRelease_some h
  obtain ⟨h1, h2, h3, h4, h5⟩ := hP
  have hcount : ∀ j, (s.G.tasks.set k (Task.probe i u Phase.released)).countP (Task.probing j) +
      (if i = j then 1 else 0) = s.G.tasks.countP (Task.probing j) := by
    intro j
    have := countP_set_of_get (Task.probing j) s.G.tasks k _
      (Task.probe i u Phase.released) hk
    simp only [Task.probing, decide_eq_true_eq, Bool.false_eq_true, ↓reduceIte] at this
    omega
  refine ⟨fun hpc => ?_, ?_, ?_, ?_, h5⟩
  · have := h1 hpc
    simp [this] at hk
  · intro j
    have := h2 j
    have hc := hcount j
    simp only [outstanding, pending] at this ⊢
    omega
  · intro j hj
    have hc := hcount j
    have hb := h2 j
    simp only [outstanding, pending] at hj hb ⊢
    by_cases hij : i = j
    · subst hij
      simp only [↓reduceIte] at hc
      omega
    · simp only [hij, ↓reduceIte] at hc
      rw [List.getElem?_set_ne hij]
      apply h3 j
      simp only [outstanding, pending]
      omega
  · intro j v ph hmem
    rcases List.mem_or_eq_of_mem_set hmem with hmem | heq
    · exact h4 j v ph hmem
    · simp only [Task.probe.injEq] at heq
      obtain ⟨rfl, rfl, _⟩ := heq
      exact h4 _ _ _ (mem_of_get_eq_some hk)

theorem flagInv_erase (m : Monitor) (s : RunState) (k : Nat) (t : Task)
    (hP : FlagInv m s) (hk : s.G.tasks[k]? = some t) (ht : ∀ j, Task.probing j t = false) :
    FlagInv m ⟨s.pc, s.ctxErr, s.StatusMap, ⟨s.G.limit, s.G.tasks.eraseIdx k⟩,
      s.siteInProgress, s.crashed⟩ := by
  obtain ⟨h1, h2, h3, h4, h5⟩ := hP
  have hcount : ∀ j, (s.G.tasks.eraseIdx k).countP (Task.probing j) =
      s.G.tasks.countP (Task.probing j) := by
    intro j
    have := countP_eraseIdx_of_get (Task.probing j) s.G.tasks k t hk
    simp only [ht j, Bool.false_eq_true, ↓reduceIte] at this
    omega
  refine ⟨fun hpc => ?_, ?_, ?_, ?_, h5⟩
  · have := h1 hpc
    simp [this] at hk
  · intro j
    have := h2 j
    simp only [outstanding, pending, hcount] at this ⊢
    exact this
  · intro j hj
    apply h3 j
    simp only [outstanding, pending, hcount] at hj ⊢
    exact hj
  · intro j v ph hmem
    exact h4 j v ph (List.mem_of_mem_eraseIdx hmem)

theorem flagInv_step (m : Monitor) (s : RunState) (e : Event) (s1 : RunState)
    (hP : FlagInv m s) (h : step m s e = some s1) : FlagInv m s1 := by
  cases e with
  | cancel c =>
    obtain ⟨_, rfl⟩ := step_cancel_some h
    exact hP
  | _ =>
    unfold step at h
    split at h
    · cases h
    · simp only at h
      first
        | exact flagInv_advance m s s1 hP h
        | (obtain ⟨hpc, _, rfl⟩ := stepSelect_some h
           obtain ⟨h1, h2, h3, h4, h5⟩ := hP
           simp only [outstanding, pending, hpc, Pc.dispatching] at h2 h3
           exact ⟨by simp, h2, h3, h4, by simp⟩)
        | exact flagInv_probeReturn m s s1 _ _ hP h
        | exact flagInv_probeRelease m s s1 _ hP h
        | (obtain ⟨i, u, hk, rfl⟩ := stepProbeExit_some h
           exact flagInv_erase m s _ _ hP hk (fun _ => rfl))
        | (obtain ⟨hk, rfl⟩ := stepReportExit_some h
           exact flagInv_erase m s _ _ hP hk (fun _ => rfl))

theorem flagInv_init (sites : List String) (freq : Int) :
    FlagInv (NewMonitor sites freq) (initState (NewMonitor sites freq)) := by
  simp [FlagInv, initState, NewMonitor, outstanding, pending, Pc.dispatching]

theorem groupInv_init (sites : List String) (freq : Int) :
    GroupInv (initState (NewMonitor sites freq)) := by
  simp [GroupInv, initState, NewMonitor]

theorem exitInv_init (sites : List String) (freq : Int) :
    ExitInv (initState (NewMonitor sites freq)) := by
  simp [ExitInv, initState, NewMonitor]

/-- With pairwise distinct sites, the probes outstanding for a site are those
outstanding for its index. -/
theorem outstandingSite_le (m : Monitor) (hnd : m.Sites.Nodup) (s : RunState)
    (hP : FlagInv m s) (u : String) : outstandingSite s u ≤ 1 := by
  obtain ⟨h1, h2, h3, h4, h5⟩ := hP
  by_cases hex : ∃ t ∈ s.G.tasks, Task.probingSite u t = true
  · obtain ⟨t, ht, hpt⟩ := hex
    cases t with
    | report => simp [Task.probingSite] at hpt
    | probe i v ph =>
      have hv : v = u := by
        cases ph <;> simp [Task.probingSite] at hpt <;> exact hpt
      subst hv
      have hi := h4 i v ph ht
      have hle : outstandingSite s v ≤ outstanding s i := by
        apply List.countP_mono_left
        intro t2 ht2 hp2
        cases t2 with
        | report => simp [Task.probingSite] at hp2
        | probe j w ph2 =>
          have hw : w = v := by
            cases ph2 <;> simp [Task.probingSite] at hp2 <;> exact hp2
          subst hw
          have hj := h4 j w ph2 ht2
          have hlt : j < m.Sites.length := by
            obtain ⟨hl, _⟩ := List.getElem?_eq_some.mp hj
            exact hl
          have hji : j = i := List.getElem?_inj hlt hnd (hj.trans hi.symm)
          subst hji
          cases ph2 <;> simp [Task.probingSite, Task.probing] at hp2 ⊢
      have := h2 i
      omega
  · have hzero : outstandingSite s u = 0 := by
      apply List.countP_eq_zero.mpr
      intro t ht hpt
      exact hex ⟨t, ht, hpt⟩
    omega

/-- A step that raises the number of outstanding probes of index `i` is the
`m.G.Go` of line 72 for that index. -/
theorem dispatch_at_goProbe (m : Monitor) (s : RunState) (e : Event) (s1 : RunState) (i : Nat)
    (h : step m s e = some s1) (hlt : outstanding s i < outstanding s1 i) :
    ∃ u, s.pc = Pc.goProbe i u := by
  cases e with
  | cancel c =>
    obtain ⟨_, rfl⟩ := step_cancel_some h
    simp only [outstanding] at hlt
    omega
  | advance =>
    unfold step at h
    split at h
    · cases h
    · rename_i hcr
      simp only at h
      obtain ⟨pc, ctxErr, tbl, ⟨limit, tasks⟩, flags, crashed⟩ := s
      cases pc <;> simp only [stepAdvance, stepEntry, Group.hasRoom, Group.go] at h
      case entry =>
        simp only [Option.some.injEq] at h
        subst h
        exfalso
        revert hlt
        split <;> (try split) <;> simp [outstanding]
      case atSelect => cases h
      case waiting =>
        split at h
        · simp only [Option.some.injEq] at h
          subst h
          simp [outstanding] at hlt
        · cases h
      case rangeAt j =>
        split at h
        · simp only [Option.some.injEq] at h
          subst h
          simp [outstanding] at hlt
        · split at h <;>
          · simp only [Option.some.injEq] at h
            subst h
            simp [outstanding] at hlt
      case casAt j u =>
        split at h <;>
        · simp only [Option.some.injEq] at h
          subst h
          simp [outstanding] at hlt
      case goProbe j u =>
        split at h
        · simp only [Option.some.injEq] at h
          subst h
          simp only [outstanding, List.countP_append, List.countP_cons, List.countP_nil,
            Task.probing, decide_eq_true_eq] at hlt
          by_cases hji : j = i
          · subst hji
            exact ⟨u, rfl⟩
          · simp [hji] at hlt
        · cases h
      case goReport =>
        split at h
        · simp only [Option.some.injEq] at h
          subst h
          simp [outstanding, Task.probing] at hlt
        · cases h
      case returned e => cases h
      case panicked => cases h
  | selectDone =>
    unfold step at h
    split at h
    · cases h
    · obtain ⟨_, _, rfl⟩ := stepSelect_some h
      simp [outstanding] at hlt
  | selectChk =>
    unfold step at h
    split at h
    · cases h
    · obtain ⟨_, _, rfl⟩ := stepSelect_some h
      simp [outstanding] at hlt
  | selectSt =>
    unfold step at h
    split at h
    · cases h
    · obtain ⟨_, _, rfl⟩ := stepSelect_some h
      simp [outstanding] at hlt
  | probeReturn k env =>
    unfold step at h
    split at h
    · cases h
    · obtain ⟨j, u, hk, hs | ⟨table, out, _, hs⟩⟩ := stepProbeReturn_some h
      · subst hs
        simp [outstanding] at hlt
      · subst hs
        have := countP_set_of_get (Task.probing i) s.G.tasks k _
          (Task.probe j u Phase.checked) hk
        simp only [Task.probing, outstanding] at this hlt
        omega
  | probeRelease k =>
    unfold step at h
    split at h
    · cases h
    · obtain ⟨j, u, hk, rfl⟩ := stepProbeRelease_some h
      have := countP_set_of_get (Task.probing i) s.G.tasks k _
        (Task.probe j u Phase.released) hk
      simp only [Task.probing, outstanding, Bool.false_eq_true, ↓reduceIte] at this hlt
      omega
  | probeExit k =>
    unfold step at h
    split at h
    · cases h
    · obtain ⟨j, u, hk, rfl⟩ := stepProbeExit_some h
      have := countP_eraseIdx_of_get (Task.probing i) s.G.tasks k _ hk
      simp only [outstanding] at this hlt
      omega
  | reportExit k env =>
    unfold step at h
    split at h
    · cases h
    · obtain ⟨hk, rfl⟩ := stepReportExit_some h
      have := countP_eraseIdx_of_get (Task.probing i) s.G.tasks k _ hk
      simp only [outstanding] at this hlt
      omega

/-- The location before `m.G.Go` of line 72 is entered only by a
compare-and-swap that found the flag 0 and set it to 1. -/
theorem goProbe_after_cas (m : Monitor) (s : RunState) (e : Event) (s1 : RunState) (i : Nat)
    (u : String) (h : step m s e = some s1) (hpc1 : s1.pc = Pc.goProbe i u)
    (hpc : s.pc ≠ Pc.goProbe i u) :
    s.pc = Pc.casAt i u ∧ s.siteInProgress[i]? = some 0 ∧ s1.siteInProgress[i]? = some 1 := by
  cases e with
  | cancel c =>
    obtain ⟨_, rfl⟩ := step_cancel_some h
    exact absurd hpc1 hpc
  | advance =>
    unfold step at h
    split at h
    · cases h
    · rename_i hcr
      simp only at h
      obtain ⟨pc, ctxErr, tbl, ⟨limit, tasks⟩, flags, crashed⟩ := s
      cases pc <;> simp only [stepAdvance, stepEntry, Group.hasRoom, Group.go] at h
      case entry =>
        simp only [Option.some.injEq] at h
        subst h
        exfalso
        revert hpc1
        split <;> (try split) <;> simp
      case atSelect => cases h
      case waiting =>
        split at h
        · simp only [Option.some.injEq] at h
          subst h
          simp at hpc1
        · cases h
      case rangeAt j =>
        split at h
        · simp only [Option.some.injEq] at h
          subst h
          simp at hpc1
        · split at h <;>
          · simp only [Option.some.injEq] at h
            subst h
            simp at hpc1
      case casAt j v =>
        split at h
        · rename_i hflag
          simp only [Option.some.injEq] at h
          subst h
          simp only [Pc.goProbe.injEq] at hpc1
          obtain ⟨rfl, rfl⟩ := hpc1
          have hlen : j < flags.length := by
            obtain ⟨hl, _⟩ := List.getElem?_eq_some.mp hflag
            exact hl
          exact ⟨rfl, hflag, by simp [List.getElem?_set, hlen]⟩
        · simp only [Option.some.injEq] at h
          subst h
          simp at hpc1
      case goProbe j v =>
        split at h
        · simp only [Option.some.injEq] at h
          subst h
          simp at hpc1
        · cases h
      case goReport =>
        split at h
        · simp only [Option.some.injEq] at h
          subst h
          simp at hpc1
        · cases h
      case returned e => cases h
      case panicked => cases h
  | selectDone =>
    unfold step at h
    split at h
    · cases h
    · obtain ⟨_, _, rfl⟩ := stepSelect_some h
      simp at hpc1
  | selectChk =>
    unfold step at h
    split at h
    · cases h
    · obtain ⟨_, _, rfl⟩ := stepSelect_some h
      simp at hpc1
  | selectSt =>
    unfold step at h
    split at h
    · cases h
    · obtain ⟨_, _, rfl⟩ := stepSelect_some h
      simp at hpc1
  | probeReturn k env =>
    unfold step at h
    split at h
    · cases h
    · obtain ⟨j, v, hk, hs | ⟨table, out, _, hs⟩⟩ := stepProbeReturn_some h
      · subst hs
        exact absurd hpc1 hpc
      · subst hs
        exact absurd hpc1 hpc
  | probeRelease k =>
    unfold step at h
    split at h
    · cases h
    · obtain ⟨j, v, hk, rfl⟩ := stepProbeRelease_some h
      exact absurd hpc1 hpc
  | probeExit k =>
    unfold step at h
    split at h
    · cases h
    · obtain ⟨j, v, hk, rfl⟩ := stepProbeExit_some h
      exact absurd hpc1 hpc
  | reportExit k env =>
    unfold step at h
    split at h
    · cases h
    · obtain ⟨hk, rfl⟩ := stepReportExit_some h
      exact absurd hpc1 hpc

theorem reachable_flagInv (sites : List String) (freq : Int) (s : RunState)
    (h : Reachable (NewMonitor sites freq) s) : FlagInv (NewMonitor sites freq) s := by
  obtain ⟨evs, hev⟩ := h
  exact execFrom_invariant _ _ (flagInv_step _) evs _ s (flagInv_init sites freq) hev

theorem reachable_groupInv (sites : List String) (freq : Int) (s : RunState)
    (h : Reachable (NewMonitor sites freq) s) : GroupInv s := by
  obtain ⟨evs, hev⟩ := h
  exact execFrom_invariant _ _ (groupInv_step _) evs _ s (groupInv_init sites freq) hev

theorem reachable_exitInv (sites : List String) (freq : Int) (hfreq : 0 < freq) (s : RunState)
    (h : Reachable (NewMonitor sites freq) s) : ExitInv s := by
  obtain ⟨evs, hev⟩ := h
  exact execFrom_invariant _ _ (exitInv_step _ hfreq) evs _ s (exitInv_init sites freq) hev

/-- C1 (the code at the failing input): on sites `a`, `b` the probe tick starts
the probe of `a`, the context is cancelled, and the loop reaches `b`: `Run`
returns through line 67 while the probe of `a` is still in the group; the probe
then writes the status map after `Run` has returned. -/
theorem run_returns_before_probe_ends :
    ((execFrom (NewMonitor ["a", "b"] 1) (initState (NewMonitor ["a", "b"] 1))
      [Event.advance, Event.selectChk, Event.advance, Event.advance, Event.advance,
       Event.cancel CtxErr.Canceled, Event.advance]).map
        (fun s => (s.pc, s.G.tasks, s.StatusMap.lookup "a"))) =
      some (Pc.returned (some CtxErr.Canceled), [Task.probe 0 "a" Phase.checking], none) ∧
    ((execFrom (NewMonitor ["a", "b"] 1) (initState (NewMonitor ["a", "b"] 1))
      [Event.advance, Event.selectChk, Event.advance, Event.advance, Event.advance,
       Event.cancel CtxErr.Canceled, Event.advance, Event.probeReturn 0 canceledEnv]).map
        (fun s => (s.pc, s.G.tasks, s.StatusMap.lookup "a"))) =
      some (Pc.returned (some CtxErr.Canceled), [Task.probe 0 "a" Phase.checked],
        some ⟨"a", 500, ⟨7⟩⟩) := by
  decide

/-- C2 (counterexample): on the endpoint list `a`, `a` one probe tick starts two
probes of the endpoint `a`, which are outstanding together. -/
theorem run_two_probes_of_one_site :
    ((execFrom (NewMonitor ["a", "a"] 1) (initState (NewMonitor ["a", "a"] 1))
      [Event.advance, Event.selectChk, Event.advance, Event.advance, Event.advance,
       Event.advance, Event.advance, Event.advance]).map
        (fun s => (s.G.tasks, outstandingSite s "a"))) =
      some ([Task.probe 0 "a" Phase.checking, Task.probe 1 "a" Phase.checking], 2) := by
  decide

/-- C2 (amended): in every reachable state of `Run`, for every position `i` of
the endpoint list at most one probe is outstanding, and while it is the flag of
the position is 1; a probe of position `i` is started only by the `m.G.Go` of
line 72, with the flag at 1, and that statement is reached only by a
compare-and-swap that took the flag from 0 to 1; when the endpoint list has no
duplicates, at most one probe of any endpoint is outstanding. -/
theorem run_one_probe_per_index (sites : List String) (freq : Int) (s : RunState)
    (h : Reachable (NewMonitor sites freq) s) :
    (∀ i, outstanding s i ≤ 1) ∧
    (∀ i, 0 < outstanding s i → s.siteInProgress[i]? = some 1) ∧
    (∀ i e s1, step (NewMonitor sites freq) s e = some s1 →
      outstanding s i < outstanding s1 i →
        (∃ u, s.pc = Pc.goProbe i u) ∧ s.siteInProgress[i]? = some 1) ∧
    (∀ i u e s1, step (NewMonitor sites freq) s e = some s1 → s1.pc = Pc.goProbe i u →
      s.pc ≠ Pc.goProbe i u →
        s.pc = Pc.casAt i u ∧ s.siteInProgress[i]? = some 0 ∧
          s1.siteInProgress[i]? = some 1) ∧
    (sites.Nodup → ∀ u, outstandingSite s u ≤ 1) := by
  have hinv := reachable_flagInv sites freq s h
  obtain ⟨h1, h2, h3, h4, h5⟩ := hinv
  refine ⟨fun i => ?_, fun i hi => ?_, fun i e s1 hs hlt => ?_, fun i u e s1 hs hpc1 hpc => ?_,
    fun hnd u => ?_⟩
  · have := h2 i
    omega
  · exact h3 i (by omega)
  · obtain ⟨u, hu⟩ := dispatch_at_goProbe _ s e s1 i hs hlt
    refine ⟨⟨u, hu⟩, h3 i ?_⟩
    simp [pending, hu, Pc.dispatching]
  · exact goProbe_after_cas _ s e s1 i u hs hpc1 hpc
  · exact outstandingSite_le (NewMonitor sites freq) hnd s ⟨h1, h2, h3, h4, h5⟩ u

/-- Witness for C2 (amended): four distinct sites, three probes outstanding. -/
theorem run_one_probe_per_index_witness :
    Reachable (NewMonitor ["a", "b", "c", "d"] 1) fullState ∧
    outstanding fullState 1 = 1 ∧
    ((∀ i, outstanding fullState i ≤ 1) ∧
    (∀ i, 0 < outstanding fullState i → fullState.siteInProgress[i]? = some 1) ∧
    (∀ i e s1, step (NewMonitor ["a", "b", "c", "d"] 1) fullState e = some s1 →
      outstanding fullState i < outstanding s1 i →
        (∃ u, fullState.pc = Pc.goProbe i u) ∧ fullState.siteInProgress[i]? = some 1) ∧
    (∀ i u e s1, step (NewMonitor ["a", "b", "c", "d"] 1) fullState e = some s1 →
      s1.pc = Pc.goProbe i u → fullState.pc ≠ Pc.goProbe i u →
        fullState.pc = Pc.casAt i u ∧ fullState.siteInProgress[i]? = some 0 ∧
          s1.siteInProgress[i]? = some 1) ∧
    (["a", "b", "c", "d"].Nodup → ∀ u, outstandingSite fullState u ≤ 1)) :=
  ⟨⟨fillTrace, rfl⟩, by decide,
    run_one_probe_per_index ["a", "b", "c", "d"] 1 fullState ⟨fillTrace, rfl⟩⟩

/-- C3: in every reachable state of `Run` the task group holds at most
`MaxGoroutines` = 3 goroutines, probe and report closures together; no
goroutine is in the group before the limit is set, and the limit is
`MaxGoroutines` from then on. -/
theorem run_concurrency_bound (sites : List String) (freq : Int) (s : RunState)
    (h : Reachable (NewMonitor sites freq) s) :
    s.G.tasks.length ≤ MaxGoroutines ∧ MaxGoroutines = 3 ∧
    (s.pc = Pc.entry → s.G.tasks = [] ∧ s.G.limit = none) ∧
    (s.pc ≠ Pc.entry → s.G.limit = some MaxGoroutines) := by
  obtain ⟨h1, h2, h3⟩ := reachable_groupInv sites freq s h
  exact ⟨h1, rfl, h2, h3⟩

/-- Witness for C3: with four sites the group is full after three probes, and
the fourth `m.G.Go` cannot proceed. -/
theorem run_concurrency_bound_witness :
    Reachable (NewMonitor ["a", "b", "c", "d"] 1) fullState ∧
    fullState.G.tasks.length = 3 ∧
    (step (NewMonitor ["a", "b", "c", "d"] 1) fullState Event.advance).isNone = true ∧
    (fullState.G.tasks.length ≤ MaxGoroutines ∧ MaxGoroutines = 3 ∧
    (fullState.pc = Pc.entry → fullState.G.tasks = [] ∧ fullState.G.limit = none) ∧
    (fullState.pc ≠ Pc.entry → fullState.G.limit = some MaxGoroutines)) :=
  ⟨⟨fillTrace, rfl⟩, rfl, rfl,
    run_concurrency_bound ["a", "b", "c", "d"] 1 fullState ⟨fillTrace, rfl⟩⟩

/-- C6 (counterexample): with the probe interval 0 `Run` panics in
`time.NewTicker` before it reaches the loop, although the context is not
cancelled. -/
theorem run_panics_on_zero_interval :
    ((execFrom (NewMonitor ["a"] 0) (initState (NewMonitor ["a"] 0)) [Event.advance]).map
      (fun s => (s.pc, s.ctxErr))) = some (Pc.panicked, none) := by
  decide

/-- C6 (amended): for a monitor made by `NewMonitor` with a positive probe
interval, the goroutine of `Run` never panics, and whenever `Run` has returned
the context is cancelled and the returned error is its non-nil error; in
particular `Run` never returns nil. -/
theorem run_exit_only_cancelled (sites : List String) (freq : Int) (hfreq : 0 < freq)
    (s : RunState) (h : Reachable (NewMonitor sites freq) s) :
    s.pc ≠ Pc.panicked ∧ s.pc ≠ Pc.returned none ∧
    (∀ e, s.pc = Pc.returned e → s.ctxErr = e ∧ ∃ c, e = some c) := by
  obtain ⟨h1, _, _, h4⟩ := reachable_exitInv sites freq hfreq s h
  refine ⟨h1, fun hn => ?_, fun e he => ⟨(h4 e he).1, ?_⟩⟩
  · have := (h4 none hn).2
    simp at this
  · exact Option.isSome_iff_exists.mp (h4 e he).2

/-- Witness for C6 (amended): one site, interval 1; the context is cancelled,
the `select` sees it, the empty group is awaited and `Run` returns the error. -/
theorem run_exit_only_cancelled_witness :
    (0 : Int) < 1 ∧ Reachable (NewMonitor ["a"] 1) returnedState ∧
    (returnedState.pc ≠ Pc.panicked ∧ returnedState.pc ≠ Pc.returned none ∧
    (∀ e, returnedState.pc = Pc.returned e → returnedState.ctxErr = e ∧ ∃ c, e = some c)) :=
  ⟨by decide,
    ⟨[Event.advance, Event.cancel CtxErr.Canceled, Event.selectDone, Event.advance], rfl⟩,
    run_exit_only_cancelled ["a"] 1 (by decide) returnedState
      ⟨[Event.advance, Event.cancel CtxErr.Canceled, Event.selectDone, Event.advance], rfl⟩⟩

/-- C7 (counterexample): with four sites `Run` waits in `m.G.Go` (line 72) for a
slot for the fourth probe when the context is cancelled.  A probe ends, and the
probe of the fourth site is handed to the group after the cancellation.  The
loop is over, the `select` finds `ctx.Done()` and a tick of the report ticker
ready and commits to the tick, and the report closure is handed to the group
as well. -/
theorem run_submits_task_after_cancel :
    execFrom (NewMonitor ["a", "b", "c", "d"] 1) (initState (NewMonitor ["a", "b", "c", "d"] 1))
      fillTrace = some fullState ∧
    ((execFrom (NewMonitor ["a", "b", "c", "d"] 1) fullState
      [Event.cancel CtxErr.Canceled, Event.probeReturn 0 canceledEnv, Event.probeRelease 0,
       Event.probeExit 0]).map
        (fun s => (s.pc, s.ctxErr, s.G.tasks))) =
      some (Pc.goProbe 3 "d", some CtxErr.Canceled,
        [Task.probe 1 "b" Phase.checking, Task.probe 2 "c" Phase.checking]) ∧
    ((execFrom (NewMonitor ["a", "b", "c", "d"] 1) fullState
      [Event.cancel CtxErr.Canceled, Event.probeReturn 0 canceledEnv, Event.probeRelease 0,
       Event.probeExit 0, Event.advance]).map
        (fun s => (s.pc, s.ctxErr, s.G.tasks))) =
      some (Pc.rangeAt 4, some CtxErr.Canceled,
        [Task.probe 1 "b" Phase.checking, Task.probe 2 "c" Phase.checking,
         Task.probe 3 "d" Phase.checking]) ∧
    ((execFrom (NewMonitor ["a", "b", "c", "d"] 1) fullState
      [Event.cancel CtxErr.Canceled, Event.probeReturn 0 canceledEnv, Event.probeRelease 0,
       Event.probeExit 0, Event.advance, Event.advance, Event.selectSt,
       Event.probeReturn 0 canceledEnv, Event.probeRelease 0, Event.probeExit 0,
       Event.advance]).map
        (fun s => (s.pc, s.ctxErr, s.G.tasks))) =
      some (Pc.atSelect, some CtxErr.Canceled,
        [Task.probe 2 "c" Phase.checking, Task.probe 3 "d" Phase.checking, Task.report]) :=
  ⟨rfl, by decide, by decide, by decide⟩

theorem sawCancel_step (m : Monitor) (s : RunState) (e : Event) (s1 : RunState)
    (hobs : s.pc.sawCancel = true) (h : step m s e = some s1) :
    s1.pc.sawCancel = true ∧ s1.G.tasks.length ≤ s.G.tasks.length := by
  cases e with
  | cancel c =>
    obtain ⟨_, rfl⟩ := step_cancel_some h
    exact ⟨hobs, le_refl _⟩
  | advance =>
    unfold step at h
    split at h
    · cases h
    · rename_i hcr
      simp only at h
      obtain ⟨pc, ctxErr, tbl, ⟨limit, tasks⟩, flags, crashed⟩ := s
      cases pc <;> simp only [Pc.sawCancel, Bool.false_eq_true] at hobs
      case waiting =>
        simp only [stepAdvance] at h
        split at h
        · simp only [Option.some.injEq] at h
          subst h
          exact ⟨rfl, le_refl _⟩
        · cases h
      case returned c =>
        simp only [stepAdvance] at h
        cases h
  | selectDone =>
    unfold step at h
    split at h
    · cases h
    · obtain ⟨hpc, _, rfl⟩ := stepSelect_some h
      simp [hpc, Pc.sawCancel] at hobs
  | selectChk =>
    unfold step at h
    split at h
    · cases h
    · obtain ⟨hpc, _, rfl⟩ := stepSelect_some h
      simp [hpc, Pc.sawCancel] at hobs
  | selectSt =>
    unfold step at h
    split at h
    · cases h
    · obtain ⟨hpc, _, rfl⟩ := stepSelect_some h
      simp [hpc, Pc.sawCancel] at hobs
  | probeReturn k env =>
    unfold step at h
    split at h
    · cases h
    · obtain ⟨j, v, hk, hs | ⟨table, out, _, hs⟩⟩ := stepProbeReturn_some h
      · subst hs
        exact ⟨hobs, le_refl _⟩
      · subst hs
        exact ⟨hobs, by simp⟩
  | probeRelease k =>
    unfold step at h
    split at h
    · cases h
    · obtain ⟨j, v, hk, rfl⟩ := stepProbeRelease_some h
      exact ⟨hobs, by simp⟩
  | probeExit k =>
    unfold step at h
    split at h
    · cases h
    · obtain ⟨j, v, hk, rfl⟩ := stepProbeExit_some h
      exact ⟨hobs, length_eraseIdx_le_self _ _⟩
  | reportExit k env =>
    unfold step at h
    split at h
    · cases h
    · obtain ⟨hk, rfl⟩ := stepReportExit_some h
      exact ⟨hobs, length_eraseIdx_le_self _ _⟩

theorem sawCancel_execFrom (m : Monitor) :
    ∀ (evs : List Event) (s s1 : RunState), s.pc.sawCancel = true →
      execFrom m s evs = some s1 →
      s1.pc.sawCancel = true ∧ s1.G.tasks.length ≤ s.G.tasks.length := by
  intro evs
  induction evs with
  | nil =>
    intro s s1 hobs h
    simp only [execFrom, Option.some.injEq] at h
    subst h
    exact ⟨hobs, le_refl _⟩
  | cons e es ih =>
    intro s s1 hobs h
    simp only [execFrom] at h
    cases hs : step m s e with
    | none => simp [hs] at h
    | some s2 =>
      rw [hs] at h
      obtain ⟨h1, h2⟩ := sawCancel_step m s e s2 hobs hs
      obtain ⟨h3, h4⟩ := ih s2 s1 h1 h
      exact ⟨h3, le_trans h4 h2⟩

/-- After the cancellation a step leaves `ctx.Err()` as it is, and it hands a
probe closure to the group only by using up the one `Run` owes. -/
theorem cancelled_step (m : Monitor) (s : RunState) (e : Event) (s1 : RunState)
    (hc : s.ctxErr ≠ none) (h : step m s e = some s1) :
    s1.ctxErr = s.ctxErr ∧
    (if probeCount s < probeCount s1 then 1 else 0) + owed s1 ≤ owed s := by
  cases e with
  | cancel c =>
    obtain ⟨hnone, _⟩ := step_cancel_some h
    exact absurd hnone hc
  | advance =>
    unfold step at h
    split at h
    · cases h
    · rename_i hcr
      simp only at h
      obtain ⟨pc, ctxErr, tbl, ⟨limit, tasks⟩, flags, crashed⟩ := s
      simp only [ne_eq] at hc
      cases pc <;> simp only [stepAdvance, stepEntry, Group.hasRoom, Group.go] at h
      case entry =>
        simp only [Option.some.injEq] at h
        split at h
        · subst h
          simp [probeCount, owed, Pc.pastCheck]
        · split at h <;>
          · subst h
            simp [probeCount, owed, Pc.pastCheck]
      case atSelect => cases h
      case waiting =>
        split at h
        · simp only [Option.some.injEq] at h
          subst h
          simp [probeCount, owed, Pc.pastCheck]
        · cases h
      case rangeAt i =>
        split at h
        · simp only [Option.some.injEq] at h
          subst h
          simp [probeCount, owed, Pc.pastCheck]
        · split at h
          · simp only [Option.some.injEq] at h
            subst h
            simp [probeCount, owed, Pc.pastCheck]
          · rename_i hsome
            exfalso
            apply hsome
            cases ctxErr with
            | none => exact absurd rfl hc
            | some c => rfl
      case casAt i u =>
        split at h <;>
        · simp only [Option.some.injEq] at h
          subst h
          simp [probeCount, owed, Pc.pastCheck]
      case goProbe i u =>
        split at h
        · simp only [Option.some.injEq] at h
          subst h
          simp [probeCount, owed, Pc.pastCheck, Task.isProbe]
        · cases h
      case goReport =>
        split at h
        · simp only [Option.some.injEq] at h
          subst h
          simp [probeCount, owed, Pc.pastCheck, Task.isProbe]
        · cases h
      case returned c => cases h
      case panicked => cases h
  | selectDone =>
    unfold step at h
    split at h
    · cases h
    · obtain ⟨hpc, _, rfl⟩ := stepSelect_some h
      simp [probeCount, owed, Pc.pastCheck, hpc]
  | selectChk =>
    unfold step at h
    split at h
    · cases h
    · obtain ⟨hpc, _, rfl⟩ := stepSelect_some h
      simp [probeCount, owed, Pc.pastCheck, hpc]
  | selectSt =>
    unfold step at h
    split at h
    · cases h
    · obtain ⟨hpc, _, rfl⟩ := stepSelect_some h
      simp [probeCount, owed, Pc.pastCheck, hpc]
  | probeReturn k env =>
    unfold step at h
    split at h
    · cases h
    · obtain ⟨j, v, hk, hs | ⟨table, out, _, hs⟩⟩ := stepProbeReturn_some h
      · subst hs
        simp [probeCount, owed]
      · subst hs
        have := countP_set_of_get Task.isProbe s.G.tasks k _
          (Task.probe j v Phase.checked) hk
        simp only [Task.isProbe, ↓reduceIte] at this
        have hle : ¬ (probeCount s < (s.G.tasks.set k (Task.probe j v Phase.checked)).countP
            Task.isProbe) := by
          simp only [probeCount]
          omega
        simp only [probeCount, owed] at hle ⊢
        simp [hle]
  | probeRelease k =>
    unfold step at h
    split at h
    · cases h
    · obtain ⟨j, v, hk, rfl⟩ := stepProbeRelease_some h
      have := countP_set_of_get Task.isProbe s.G.tasks k _
        (Task.probe j v Phase.released) hk
      simp only [Task.isProbe, ↓reduceIte] at this
      have hle : ¬ (probeCount s < (s.G.tasks.set k (Task.probe j v Phase.released)).countP
          Task.isProbe) := by
        simp only [probeCount]
        omega
      simp only [probeCount, owed] at hle ⊢
      simp [hle]
  | probeExit k =>
    unfold step at h
    split at h
    · cases h
    · obtain ⟨j, v, hk, rfl⟩ := stepProbeExit_some h
      have := countP_eraseIdx_of_get Task.isProbe s.G.tasks k _ hk
      have hle : ¬ (probeCount s < (s.G.tasks.eraseIdx k).countP Task.isProbe) := by
        simp only [probeCount]
        omega
      simp only [probeCount, owed] at hle ⊢
      simp [hle]
  | reportExit k env =>
    unfold step at h
    split at h
    · cases h
    · obtain ⟨hk, rfl⟩ := stepReportExit_some h
      have := countP_eraseIdx_of_get Task.isProbe s.G.tasks k _ hk
      have hle : ¬ (probeCount s < (s.G.tasks.eraseIdx k).countP Task.isProbe) := by
        simp only [probeCount]
        omega
      simp only [probeCount, owed] at hle ⊢
      simp [hle]

theorem cancelled_execFrom (m : Monitor) :
    ∀ (evs : List Event) (s s1 : RunState), s.ctxErr ≠ none →
      execFrom m s evs = some s1 →
      s1.ctxErr = s.ctxErr ∧ probeSubmits m s evs + owed s1 ≤ owed s := by
  intro evs
  induction evs with
  | nil =>
    intro s s1 hc h
    simp only [execFrom, Option.some.injEq] at h
    subst h
    simp [probeSubmits]
  | cons e es ih =>
    intro s s1 hc h
    simp only [execFrom] at h
    cases hs : step m s e with
    | none => simp [hs] at h
    | some s2 =>
      rw [hs] at h
      obtain ⟨h1, h2⟩ := cancelled_step m s e s2 hc hs
      obtain ⟨h3, h4⟩ := ih s2 s1 (by rw [h1]; exact hc) h
      refine ⟨h3.trans h1, ?_⟩
      simp only [probeSubmits, hs]
      omega

/-- C7 (amended): once the context has been cancelled, no further probe task is
handed to the task group, except at most one: the probe of the iteration in
which `Run` had already passed the check of line 66 and had not yet finished
the `m.G.Go` of line 72 when the cancellation came; if `Run` was not there, no
probe is handed over at all and `Run` never gets there again.  And once `Run`
has seen the cancellation (the `select` took the `ctx.Done()` case, or the
check of line 66 found `ctx.Err()` non-nil and `Run` returned), it stays so,
the group only shrinks, and no later step hands a task of either kind to the
group. -/
theorem run_after_cancel (m : Monitor) (s : RunState) (evs : List Event) (s1 : RunState)
    (h : execFrom m s evs = some s1) :
    (s.ctxErr ≠ none →
      s1.ctxErr = s.ctxErr ∧
      probeSubmits m s evs + owed s1 ≤ owed s ∧
      probeSubmits m s evs ≤ 1 ∧
      (s.pc.pastCheck = false → probeSubmits m s evs = 0 ∧ s1.pc.pastCheck = false) ∧
      (s1.pc.pastCheck = false →
        ∀ e s2, step m s1 e = some s2 → probeCount s2 ≤ probeCount s1)) ∧
    ((s.pc = Pc.waiting ∨ ∃ c, s.pc = Pc.returned c) →
      (s1.pc = Pc.waiting ∨ ∃ c, s1.pc = Pc.returned c) ∧
      s1.G.tasks.length ≤ s.G.tasks.length ∧
      (∀ e s2, step m s1 e = some s2 → s2.G.tasks.length ≤ s1.G.tasks.length)) := by
  constructor
  · intro hc
    obtain ⟨h1, h2⟩ := cancelled_execFrom m evs s s1 hc h
    have howed : owed s ≤ 1 := by
      unfold owed
      split <;> omega
    refine ⟨h1, h2, by omega, fun hp => ?_, fun hp e s2 hs => ?_⟩
    · have hz : owed s = 0 := by simp [owed, hp]
      refine ⟨by omega, ?_⟩
      have hz1 : owed s1 = 0 := by omega
      cases hpc : s1.pc.pastCheck with
      | false => rfl
      | true => simp [owed, hpc] at hz1
    · have hc1 : s1.ctxErr ≠ none := by rw [h1]; exact hc
      have hz1 : owed s1 = 0 := by simp [owed, hp]
      have := (cancelled_step m s1 e s2 hc1 hs).2
      by_contra hlt
      rw [if_pos (by omega)] at this
      omega
  · intro hobs
    have hsaw : s.pc.sawCancel = true := by
      rcases hobs with hw | ⟨c, hr⟩
      · rw [hw]; rfl
      · rw [hr]; rfl
    obtain ⟨h1, h2⟩ := sawCancel_execFrom m evs s s1 hsaw h
    refine ⟨?_, h2, fun e s2 hs => (sawCancel_step m s1 e s2 h1 hs).2⟩
    cases hpc : s1.pc <;> simp [hpc, Pc.sawCancel] at h1 ⊢

/-- Witness for C7 (amended): four sites, the context cancelled while `Run`
waits in `m.G.Go` for the fourth probe; afterwards exactly that one probe is
handed over (and a report closure).  And one site, `Run` waiting for the group
after it has seen the cancellation; the probe ends, `Run` returns, nothing is
handed over. -/
theorem run_after_cancel_witness :
    Reachable (NewMonitor ["a", "b", "c", "d"] 1) cancelledFullState ∧
    execFrom (NewMonitor ["a", "b", "c", "d"] 1) cancelledFullState afterCancelTrace =
      some afterCancelState ∧
    probeSubmits (NewMonitor ["a", "b", "c", "d"] 1) cancelledFullState afterCancelTrace = 1 ∧
    owed cancelledFullState = 1 ∧
    ((cancelledFullState.ctxErr ≠ none →
      afterCancelState.ctxErr = cancelledFullState.ctxErr ∧
      probeSubmits (NewMonitor ["a", "b", "c", "d"] 1) cancelledFullState afterCancelTrace +
        owed afterCancelState ≤ owed cancelledFullState ∧
      probeSubmits (NewMonitor ["a", "b", "c", "d"] 1) cancelledFullState afterCancelTrace ≤ 1 ∧
      (cancelledFullState.pc.pastCheck = false →
        probeSubmits (NewMonitor ["a", "b", "c", "d"] 1) cancelledFullState afterCancelTrace = 0 ∧
          afterCancelState.pc.pastCheck = false) ∧
      (afterCancelState.pc.pastCheck = false →
        ∀ e s2, step (NewMonitor ["a", "b", "c", "d"] 1) afterCancelState e = some s2 →
          probeCount s2 ≤ probeCount afterCancelState)) ∧
    ((cancelledFullState.pc = Pc.waiting ∨ ∃ c, cancelledFullState.pc = Pc.returned c) →
      (afterCancelState.pc = Pc.waiting ∨ ∃ c, afterCancelState.pc = Pc.returned c) ∧
      afterCancelState.G.tasks.length ≤ cancelledFullState.G.tasks.length ∧
      (∀ e s2, step (NewMonitor ["a", "b", "c", "d"] 1) afterCancelState e = some s2 →
        s2.G.tasks.length ≤ afterCancelState.G.tasks.length))) ∧
    Reachable (NewMonitor ["a"] 1) drainingState ∧
    ((drainedState.pc = Pc.waiting ∨ ∃ c, drainedState.pc = Pc.returned c) ∧
      drainedState.G.tasks.length ≤ drainingState.G.tasks.length ∧
      (∀ e s2, step (NewMonitor ["a"] 1) drainedState e = some s2 →
        s2.G.tasks.length ≤ drainedState.G.tasks.length)) :=
  ⟨⟨fillTrace ++ [Event.cancel CtxErr.Canceled], rfl⟩, rfl, by decide, by decide,
    run_after_cancel (NewMonitor ["a", "b", "c", "d"] 1) cancelledFullState afterCancelTrace
      afterCancelState rfl,
    ⟨[Event.advance, Event.selectChk, Event.advance, Event.advance, Event.advance,
      Event.advance, Event.cancel CtxErr.Canceled, Event.selectDone], rfl⟩,
    (run_after_cancel (NewMonitor ["a"] 1) drainingState
      [Event.probeReturn 0 canceledEnv, Event.probeRelease 0, Event.probeExit 0,
       Event.advance] drainedState rfl).2 (Or.inl rfl)⟩

end GoAroundSites

/-! ## Theorems: `CountingToLowerReaderImpl` -/

namespace StructsInterfaces

theorem addInt64_eq (a b : Int) (ha : 0 ≤ a) (hb : 0 ≤ b) (h : a + b < 2 ^ 63) :
    addInt64 a b = a + b := by
  unfold addInt64
  norm_num at h ⊢
  omega

theorem bytesToLower_append (p q : List Nat) :
    bytesToLower (p ++ q) = bytesToLower p ++ bytesToLower q := by
  simp [bytesToLower]

theorem bytesToLower_length (p : List Nat) : (bytesToLower p).length = p.length := by
  simp [bytesToLower]

theorem bytesToLower_take (p : List Nat) (n : Nat) :
    (bytesToLower p).take n = bytesToLower (p.take n) := by
  simp [bytesToLower, List.map_take]

/-- The embedded loop of `ReadAll` on a source that never returns an error with
its bytes: it ends with `io.EOF`, having written the image under `bytesToLower`
of every byte and counted every byte.  (It speaks of the code for ASCII content,
where `bytesToLower` is `bytes.ToLower`.) -/
theorem readLoop_plain (L : Nat) (hL : 1 ≤ L) :
    ∀ (n : Nat) (r : Source), r.weight = n → (∀ a ∈ r, a.err = none) →
      ∀ (t : Int) (buf res : List Nat), buf.length = L → 0 ≤ t →
        t + (r.bytes.length : Int) < 2 ^ 63 →
        ∃ fuel, readLoop fuel ⟨r, t⟩ buf res =
          some (⟨[], t + (r.bytes.length : Int)⟩, res ++ bytesToLower r.bytes, IoErr.EOF) := by
  intro n
  induction n using Nat.strong_induction_on with
  | _ n ih =>
    intro r hw hplain t buf res hbuf ht hsum
    cases r with
    | nil =>
      refine ⟨1, ?_⟩
      simp [readLoop, CountingToLowerReaderImpl.Read, Source.read, Source.bytes, bytesToLower,
        addInt64_eq t 0 ht (le_refl 0) (by simpa [Source.bytes] using hsum)]
    | cons a rest =>
      have haerr : a.err = none := hplain a (List.mem_cons_self _ _)
      have hrest : ∀ b ∈ rest, b.err = none := fun b hb => hplain b (List.mem_cons_of_mem _ hb)
      simp only [Source.bytes, List.length_append, Nat.cast_add] at hsum
      by_cases hfit : a.data.length ≤ L
      · have hadd : addInt64 t a.data.length = t + a.data.length :=
          addInt64_eq t _ ht (by omega) (by omega)
        obtain ⟨fuel, hloop⟩ := ih (Source.weight rest) (by simp only [Source.weight] at hw; omega)
          rest rfl hrest (t + a.data.length)
          (bytesToLower (a.data ++ buf.drop a.data.length)) (res ++ bytesToLower a.data)
          (by rw [bytesToLower_length, List.length_append, List.length_drop]; omega)
          (by omega) (by omega)
        refine ⟨fuel + 1, ?_⟩
        simp only [readLoop, CountingToLowerReaderImpl.Read, Source.read, hbuf, hfit, ↓reduceIte,
          haerr, true_or, hadd, bytesToLower_take, List.take_left']
        rw [hloop]
        simp [Source.bytes, bytesToLower_append, add_assoc]
      · have hlt : L < a.data.length := by omega
        have hadd : addInt64 t L = t + L := addInt64_eq t _ ht (by omega) (by omega)
        have hw2 : Source.weight (⟨a.data.drop L, a.err⟩ :: rest) < n := by
          simp only [Source.weight, List.length_drop] at hw ⊢
          omega
        have hplain2 : ∀ b ∈ (⟨a.data.drop L, a.err⟩ :: rest : Source), b.err = none := by
          intro b hb
          rcases List.mem_cons.mp hb with rfl | hb
          · exact haerr
          · exact hrest b hb
        obtain ⟨fuel, hloop⟩ := ih _ hw2 (⟨a.data.drop L, a.err⟩ :: rest) rfl hplain2
          (t + L) (bytesToLower (a.data.take L)) (res ++ bytesToLower (a.data.take L))
          (by rw [bytesToLower_length, List.length_take]; omega)
          (by omega)
          (by simp only [Source.bytes, List.length_append, List.length_drop, Nat.cast_add]
              omega)
        refine ⟨fuel + 1, ?_⟩
        have htake : (a.data.take L).take L = a.data.take L := by
          rw [List.take_take, min_self]
        simp only [readLoop, CountingToLowerReaderImpl.Read, Source.read, hbuf, hfit, ↓reduceIte,
          true_or, hadd, bytesToLower_take, htake]
        rw [hloop]
        have hsplit : a.data.take L ++ (a.data.drop L ++ (Source.bytes rest)) = a.data ++ (Source.bytes rest) := by
          rw [← List.append_assoc, List.take_append_drop]
        have hlen : ((L : Int) + (((a.data.drop L).length : Int) +
            ((Source.bytes rest).length : Int))) =
            (a.data.length : Int) + ((Source.bytes rest).length : Int) := by
          simp only [List.length_drop]
          omega
        simp only [Source.bytes, List.append_assoc, ← bytesToLower_append, hsplit,
          List.length_append, Nat.cast_add, add_assoc]
        rw [hlen]

/-- On a source of ASCII bytes that signals `io.EOF` only in a call of its own,
`ReadAll` with a buffer of at least one byte returns every byte, lower-cased,
with a nil error, and `BytesRead` is the number of bytes returned. -/
theorem readAll_plain (r : Source) (bufSize : Nat) (hbuf : 1 ≤ bufSize)
    (hplain : ∀ a ∈ r, a.err = none) (_hascii : ∀ b ∈ r.bytes, b < 128)
    (hsize : (r.bytes.length : Int) < 2 ^ 63) :
    ∃ fuel cr1, (NewCountingReader r).ReadAll fuel bufSize =
        some (cr1, bytesToLower r.bytes, none) ∧
      cr1.BytesRead = (bytesToLower r.bytes).length := by
  obtain ⟨fuel, hloop⟩ := readLoop_plain bufSize hbuf r.weight r rfl hplain 0
    (List.replicate bufSize 0) [] (by simp) (le_refl 0) (by simpa using hsize)
  refine ⟨fuel, ⟨[], (r.bytes.length : Int)⟩, ?_, ?_⟩
  · simp only [CountingToLowerReaderImpl.ReadAll, NewCountingReader, hloop]
    simp
  · simp [CountingToLowerReaderImpl.BytesRead, bytesToLower_length]

/-- C10 (the code at the failing input): the wrapped reader delivers the ASCII
bytes `AB` and `io.EOF` in one call; `ReadAll(2)` returns the empty string and
a nil error, while `BytesRead()` is 2.  The specified result is `ab`. -/
theorem readAll_drops_bytes_with_eof :
    dataErrSource.delivers [65, 66] = true ∧
    ((NewCountingReader dataErrSource).ReadAll 1 2).map
      (fun r => (r.2.1, r.2.2, r.1.BytesRead)) = some ([], none, 2) ∧
    bytesToLower [65, 66] = [97, 98] := by
  decide

end StructsInterfaces
